import Mathlib

/-!
Verification development for the verification-gate engine of `bot.py`.

The Python source is shallowly embedded: pure helpers become Lean
functions over `List Char` / `String`; the stateful Telegram handlers
become pure functions from an explicit context (user row, FSM state,
network oracle, ...) and the process-wide `processing_users` map to a
result record carrying the updated map, an ordered trace of externally
visible effects, and a flag marking a propagated Python exception.

Modelling conventions, noted once here:
* Python `str` methods are modelled character-wise over `List Char`.
  `str.upper` / `str.lower` are modelled with `Char.toUpper` /
  `Char.toLower` (ASCII case mapping); all strings the program compares
  against are ASCII, so only exotic Unicode case-mapping is out of scope.
* Python `str.isdigit` is true for decimal digits and for "digit"
  characters that `int()` nevertheless rejects (e.g. the superscripts
  `¹ ² ³`).  The model covers ASCII decimal digits plus those three
  superscripts as representatives of the non-decimal digit class.
* Fallible code returns `Except Unit`; `.error ()` marks a propagating
  Python exception (`ValueError` from `int()`, network errors, ...).
* SQLite `NULL` is modelled with `Option`; a `WHERE credits >= ?`
  comparison against `NULL` is not satisfied, as in SQL.
-/

set_option maxRecDepth 4000

namespace Bot

/-! ## Python string primitives -/

/-- Python `str.isspace` class used by `str.strip` / `str.split` /
regex `\s` (ASCII repertoire: space, tab, LF, CR, VT, FF). -/
def pyIsSpace (c : Char) : Bool :=
  c = ' ' || c = '\t' || c = '\n' || c = '\r' || c = '\x0b' || c = '\x0c'

/-- Python `str.isdigit` on one character: ASCII decimal digits, plus the
compatibility superscript digits, which are "digits" for `isdigit` but are
rejected by `int()`. -/
def pyIsDigitChar (c : Char) : Bool :=
  c.isDigit || c = '¹' || c = '²' || c = '³'

/-- A character that `str.isdigit` accepts but `int()` rejects. -/
def nonDecimalDigit (c : Char) : Bool :=
  pyIsDigitChar c && !c.isDigit

/-- Python `str.isdigit` on a string: nonempty and all characters digits. -/
def pyIsDigit (s : String) : Bool :=
  s.data.length != 0 && s.data.all pyIsDigitChar

/-- Drop trailing characters satisfying `pyIsSpace` (the right-hand half
of `str.strip`). -/
def rdropWs : List Char → List Char
  | [] => []
  | c :: rest =>
    match rdropWs rest with
    | [] => if pyIsSpace c then [] else [c]
    | r => c :: r

/-- `str.strip` on a character list. -/
def stripChars (s : List Char) : List Char :=
  rdropWs (s.dropWhile pyIsSpace)

/-- Python `str.strip`. -/
def pyStrip (s : String) : String :=
  String.mk (stripChars s.data)

/-- `re.split(r"[|]", s)` on a character list: split at every `'|'`,
keeping empty fields. -/
def splitPipeChars : List Char → List (List Char)
  | [] => [[]]
  | c :: rest =>
    if c = '|' then [] :: splitPipeChars rest
    else
      match splitPipeChars rest with
      | [] => [[c]]
      | f :: fs => (c :: f) :: fs

/-- `re.split(r"[|]", s)` (same as `s.split("|")`). -/
def pySplitPipe (s : String) : List String :=
  (splitPipeChars s.data).map String.mk

/-- Helper for `str.split()`: accumulate the current word (reversed). -/
def wordsAux : List Char → List Char → List (List Char)
  | [], acc => if acc.isEmpty then [] else [acc.reverse]
  | c :: rest, acc =>
    if pyIsSpace c then
      if acc.isEmpty then wordsAux rest [] else acc.reverse :: wordsAux rest []
    else wordsAux rest (c :: acc)

/-- Python `str.split()` with no argument: split on whitespace runs,
discarding empty fields. -/
def pyWords (s : String) : List String :=
  (wordsAux s.data []).map String.mk

/-- Python `s.replace("\n", " ")`. -/
def pyReplaceNl (s : String) : String :=
  String.mk (s.data.map (fun c => if c = '\n' then ' ' else c))

/-- Python `str.upper` (ASCII case mapping). -/
def pyUpper (s : String) : String :=
  String.mk (s.data.map Char.toUpper)

/-- Python `str.lower` (ASCII case mapping). -/
def pyLower (s : String) : String :=
  String.mk (s.data.map Char.toLower)

/-- Substring test on character lists (Python `needle in haystack`). -/
def listIn (n : List Char) : List Char → Bool
  | [] => n.isEmpty
  | c :: rest => n.isPrefixOf (c :: rest) || listIn n rest

/-- Python string containment `needle in haystack`. -/
def pyIn (needle hay : String) : Bool :=
  listIn needle.data hay.data

/-- Decidable equality of `Except` results, so concrete runs of the
embedded fallible functions can be checked by `decide`. -/
instance exceptDecEq {α β : Type} [DecidableEq α] [DecidableEq β] :
    DecidableEq (Except α β) := fun a b =>
  match a, b with
  | .ok x, .ok y =>
    if h : x = y then isTrue (by rw [h])
    else isFalse (fun hc => h (Except.ok.inj hc))
  | .error e, .error f =>
    if h : e = f then isTrue (by rw [h])
    else isFalse (fun hc => h (Except.error.inj hc))
  | .ok _, .error _ => isFalse (fun hc => Except.noConfusion hc)
  | .error _, .ok _ => isFalse (fun hc => Except.noConfusion hc)

/-- `int()` applied to a single character that passed `isdigit`:
`ValueError` unless it is an ASCII decimal digit. -/
def pyIntOfDigitChar (c : Char) : Except Unit Nat :=
  if c.isDigit then .ok (c.toNat - 48) else .error ()

/-- One step of `int(s)`: shift the accumulator and add the next digit. -/
def intStep (acc : Nat) (c : Char) : Except Unit Nat := do
  let d ← pyIntOfDigitChar c
  pure (acc * 10 + d)

/-- `int(s)` for a string that passed `str.isdigit`: decimal value, or
`ValueError` if some character is a non-decimal digit. -/
def pyIntOfDigits (s : String) : Except Unit Nat :=
  s.data.foldlM intStep 0

/-- Decimal value of an all-ASCII-digit string (pure counterpart of
`pyIntOfDigits` on decimal input). -/
def decimalVal (s : String) : Nat :=
  s.data.foldl (fun acc c => acc * 10 + (c.toNat - 48)) 0

/-! ## Validation and classification (`luhn_valid`, `parse_cc`,
`classify_head`) -/

/-- Contribution of the digit at (0-based, from the right) index `p.1`
to the Luhn total: double every second digit, subtracting 9 when the
double exceeds 9. -/
def luhnContrib (p : Nat × Char) : Nat :=
  let d := p.2.toNat - 48
  if p.1 % 2 = 1 then (if d * 2 > 9 then d * 2 - 9 else d * 2) else d

/-- The loop body of `luhn_valid`: `n = int(d)` (which may raise), then
add the doubled-as-needed contribution to the running total. -/
def luhnStep (total : Nat) (p : Nat × Char) : Except Unit Nat := do
  let n ← pyIntOfDigitChar p.2
  pure (total + (if p.1 % 2 = 1 then (if n * 2 > 9 then n * 2 - 9 else n * 2) else n))

/-- `luhn_valid(card_number)` from the source: digit check, length
12–19, then the mod-10 sum over the reversed digits, doubling every
second digit and subtracting 9 above 9.  `int(d)` on a non-decimal
digit character raises, hence `Except`. -/
def luhn_valid (card_number : String) : Except Unit Bool :=
  if !pyIsDigit card_number then .ok false
  else if !(12 ≤ card_number.data.length && card_number.data.length ≤ 19) then .ok false
  else do
    let reverse_digits := card_number.data.reverse
    let total ← reverse_digits.enum.foldlM luhnStep 0
    pure (total % 10 = 0)

/-- `parse_cc(cc)` from the source: strip, split on `|`, require four
all-digit fields, Luhn-check the number, require month 1–12, expand a
two-digit year with `"20"`, and return the pipe-joined canonical string.
`.ok none` is Python `None` (rejected); `.error ()` is a propagating
`ValueError` from `int()`. -/
def parse_cc (cc : String) : Except Unit (Option String) :=
  match pySplitPipe (pyStrip cc) with
  | [c0, m0, y0, cvv0] =>
    let c := pyStrip c0
    let m := pyStrip m0
    let y := pyStrip y0
    let cvv := pyStrip cvv0
    if !pyIsDigit c || !pyIsDigit m || !pyIsDigit y || !pyIsDigit cvv then .ok none
    else do
      let lv ← luhn_valid c
      if !lv then pure none
      else do
        let mi ← pyIntOfDigits m
        if mi < 1 || 12 < mi then pure none
        else
          let y := if y.data.length = 2 then "20" ++ y else y
          pure (some (c ++ "|" ++ m ++ "|" ++ y ++ "|" ++ cvv))
  | _ => .ok none

/-- Outcome text for a challenge / 3-D Secure card. -/
def challenge_text : String := "⚠️ <b>3D Card</b>"

/-- Outcome text for an approved card. -/
def approved_text : String := "✅ <b>Approved</b>"

/-- Outcome text for a declined card. -/
def declined_text : String := "❌ <b>Declined</b>"

/-- The challenge markers scanned for in the upper-cased message. -/
def challenge_markers : List String :=
  ["3DS", "3D", "OTP", "ONE TIME PASSWORD", "REDIRECT", "3-D"]

/-- `classify_head(status, message)` from the source: challenge markers
first, then the accepted status set, then the security-code override,
else declined. -/
def classify_head (status message : String) : String :=
  let s := pyLower status
  let upper_msg := pyUpper message
  if challenge_markers.any (fun k => pyIn k upper_msg) then challenge_text
  else if s = "succeeded" || s = "order_id" || s = "requires_action" then approved_text
  else if pyIn "SECURITY CODE IS INCORRECT" upper_msg then approved_text
  else declined_text

/-! ## Credit ledger (`deduct_credits`, `add_credits`) -/

/-- The `users` table restricted to what the ledger touches: for each
`tg_id`, `none` if there is no row, otherwise the nullable `credits`
column. -/
def Ledger : Type := Int → Option (Option Int)

/-- SQL `credits >= ?` — not satisfied when `credits` is `NULL`. -/
def sqlGe : Option Int → Int → Bool
  | none, _ => false
  | some c, a => a ≤ c

/-- SQL `COALESCE(credits, 0)`. -/
def coalesce0 : Option Int → Int
  | none => 0
  | some c => c

/-- `deduct_credits(db, tg_id, amount)`: the single conditional SQL
update `SET credits = COALESCE(credits,0) - ? WHERE tg_id = ? AND
credits >= ?`, executed atomically by the store. -/
def deduct_credits (db : Ledger) (tg amount : Int) : Ledger :=
  fun u =>
    match db u with
    | none => none
    | some creds =>
      if u = tg && sqlGe creds amount then some (some (coalesce0 creds - amount))
      else some creds

/-- `add_credits(db, tg_id, amount)`: unconditional
`SET credits = COALESCE(credits,0) + ? WHERE tg_id = ?`. -/
def add_credits (db : Ledger) (tg amount : Int) : Ledger :=
  fun u =>
    match db u with
    | none => none
    | some creds =>
      if u = tg then some (some (coalesce0 creds + amount))
      else some creds

/-- Every populated row has a non-negative (or `NULL`) balance. -/
def ledgerNonneg (db : Ledger) : Prop :=
  ∀ u c, db u = some (some c) → 0 ≤ c

/-! ## Message texts and formatting helpers -/

/-- `BASE_CC_API` from the settings block. -/
def BASE_CC_API : String := "https://hazunamadada.onrender.com/ccngate/"

/-- Dictionary lookup with default, for the BIN-info mapping
(`info.get(key, "N/A")`). -/
def dictGet (info : List (String × String)) (key : String) : String :=
  match info.find? (fun p => p.1 = key) with
  | some p => p.2
  | none => "N/A"

/-- `format_bin_block(bin6, info)` from the source. -/
def format_bin_block (bin6 : String) (info : List (String × String)) : String :=
  "\n━━━━━━━━━━━━━\n" ++
  "🔗 <b>BIN DETAILS</b>\n" ++
  "• <b>Bin</b> ⌁ (" ++ bin6 ++ ")\n" ++
  "• <b>Info</b> ⌁ " ++ dictGet info "Card Brand" ++ " - " ++ dictGet info "Card Type" ++
    " - " ++ dictGet info "Card Level" ++ "\n" ++
  "• <b>Bank</b> ⌁ " ++ dictGet info "Issuer Name / Bank" ++ "\n" ++
  "• <b>Country</b> ⌁ " ++ dictGet info "Country" ++ "\n" ++
  "━━━━━━━━━━━━━"

/-- `mention(user)` from the source (`full_name or "User"`). -/
def mention (uid : Int) (full_name : String) : String :=
  let name := if full_name = "" then "User" else full_name
  "<a href=\"tg://user?id=" ++ toString uid ++ "\">" ++ name ++ "</a>"

/-- Maintenance notice sent by both gates. -/
def maintenance_text : String := "🛠️ Bot is under maintenance. Please try again later."

/-- `ccn_gate_info()` from the source. -/
def ccn_gate_info : String :=
  "⚡ <b>CCN AUTH GATE</b>\n━━━━━━━━━━━━━\n" ++
  "• <b>What it does</b> ⌁ Authorizes card details against gateway.\n" ++
  "• <b>How to use</b> ⌁ Send: <code>/ccn cc|mm|yyyy|cvv</code>\n" ++
  "• <b>Status</b> ⌁ Active ✅\n━━━━━━━━━━━━━"

/-- `mccn_gate_info()` from the source. -/
def mccn_gate_info : String :=
  "📦 <b>MASS CCN GATE</b>\n━━━━━━━━━━━━━\n" ++
  "• <b>What it does</b> ⌁ Mass checking\n" ++
  "• <b>How to use</b> ⌁ Send: <code>/mccn</code> cards\n" ++
  "• <b>Limit</b> ⌁ Max 5\n" ++
  "• <b>Status</b> ⌁ Active ✅\n━━━━━━━━━━━━━"

/-- Modelled from the spec: the body of `insufficient(message)` is not in
the provided source (only its two call sites are); per the spec's error
taxonomy it reports insufficient credit explicitly, with a contact-owner
action. -/
def insufficient_text : String :=
  "💰 Insufficient credits. Contact the owner to top up."

/-- `start_message_text(u, registered, credits)` from the source
(`credits = none` renders as the admin infinity). -/
def start_message_text (first_name : String) (uid : Int) (registered : Bool)
    (credits : Option Int) : String :=
  let base :=
    "<b>LITTLE YAMRAJ | Version - 1.0</b>\n━━━━━━━━━━━━━\n" ++
    "Hello, <b>" ++ first_name ++ "</b>! How can I help you today? ✨\n\n" ++
    "👤 <b>User ID</b> ⌁ <code>" ++ toString uid ++ "</code>\n" ++
    "🤖 <b>BOT Status</b> ⌁ <b>UP</b> ✅\n\n"
  if !registered then
    base ++ "📝 <b>Registration Required</b>\n" ++
      "Tap <b>Register</b> below to get started and receive free credits! 🎁\n"
  else
    let cred_text := match credits with
      | none => "∞"
      | some c => toString c
    base ++ "💰 <b>Credits</b> ⌁ " ++ cred_text ++ "\n\n" ++
      "🔗 Explore: Use the buttons below to discover all features.\n"

/-! ## Command regexes -/

/-- `cc_re = re.compile(r"^/ccn\s+([\d|]+)")`, applied with `re.match`
(anchored prefix match): after `/ccn` there must be at least one
whitespace character and then at least one digit-or-pipe character; the
capture is the maximal digit-or-pipe run. -/
def cc_re_match (text : String) : Option String :=
  if "/ccn".data.isPrefixOf text.data then
    let rest := text.data.drop 4
    if (rest.takeWhile pyIsSpace).isEmpty then none
    else
      let after := rest.dropWhile pyIsSpace
      let run := after.takeWhile (fun c => c.isDigit || c = '|')
      if run.isEmpty then none else some (String.mk run)
  else none

/-- `mass_re = re.compile(r"^/mccn\s+(.+)", re.S)` with `re.match`: the
greedy `\s+` backtracks by exactly one character when nothing follows
the whitespace, so `"/mccn  "` captures a single space while `"/mccn "`
does not match. -/
def mass_re_match (text : String) : Option String :=
  if "/mccn".data.isPrefixOf text.data then
    let rest := text.data.drop 5
    let k := (rest.takeWhile pyIsSpace).length
    if k = 0 then none
    else if k < rest.length then some (String.mk (rest.drop k))
    else if 2 ≤ k then some (String.mk (rest.drop (k - 1)))
    else none
  else none

/-! ## Handler embedding -/

/-- The `users`-row fields the gates read.  The `credits` column is
written only by inserts and `COALESCE` updates, hence never `NULL`. -/
structure UserRec where
  credits : Int
  is_admin : Bool
deriving DecidableEq

/-- The aiogram FSM states of `Flow`. -/
inductive GateState
  | in_commands
  | in_gate_ccn
  | in_gate_mccn
deriving DecidableEq

/-- One element of the JSON list returned by the verification service;
`none` fields model missing dictionary keys (`r.get` defaults apply at
the read site). -/
structure RespEntry where
  status : Option String
  message : Option String
deriving DecidableEq

/-- Result of one `fetch_json` call: a JSON list, some other JSON value,
or a raised exception (network error / timeout). -/
inductive NetResult
  | list (entries : List RespEntry)
  | other
  | err
deriving DecidableEq

/-- The process-wide `processing_users` map (`get` defaults to absent =
`false`; `pop` stores `false`). -/
def ProcMap : Type := Int → Bool

/-- Externally visible actions of a handler, in program order.  The
admission-map writes are recorded as `acquire`/`release` so ordering
against the network call is visible in the trace. -/
inductive Effect
  | delete
  | answer (text : String)
  | editMsg (text : String)
  | stopSignal
  | sleep (ms : Nat)
  | animStart
  | netCall (url : String)
  | binLookup (bin6 : String)
  | channelSend (text : String)
  | debit (amount : Int)
  | acquire
  | release
deriving DecidableEq

/-- Everything a gate handler reads from its environment: the message,
the user row, the FSM state, the settings, and oracles for the network
and for transport-edit success.  Message sends are modelled as
delivered; only edit/delete failures (which the source catches) vary. -/
structure Ctx where
  uid : Int
  first_name : String
  full_name : String
  in_admin_ids : Bool
  existing : Option UserRec
  maintenance : Bool
  fsm : Option GateState
  text : String
  binInfo : String → List (String × String)
  net : Nat → NetResult
  finalEditOk : Bool
  channel_results : Bool

/-- Result of running a handler: the updated `processing_users` map, the
effect trace, and whether a Python exception propagated out. -/
structure HResult where
  pm : ProcMap
  trace : List Effect
  raised : Bool

/-- `full.split("|")[0][:6]` — the BIN prefix of the canonical card. -/
def ccn_bin6 (full : String) : String :=
  String.mk (((pySplitPipe full).headD "").data.take 6)

/-- The placeholder message `base` of `do_ccn`. -/
def ccn_base (ctx : Ctx) (full : String) : String :=
  "💳 <code>" ++ full ++ "</code>" ++
    format_bin_block (ccn_bin6 full) (ctx.binInfo (ccn_bin6 full))

/-- The final result text of `do_ccn` for a structured response. -/
def ccn_text (ctx : Ctx) (full : String) (r : RespEntry) : String :=
  classify_head (r.status.getD "") (r.message.getD "Result") ++
  "\n━━━━━━━━━━━━━\n💳 <code>" ++ full ++ "</code>\n╰┈➤ <b>" ++
  r.message.getD "Result" ++ "</b>" ++
  format_bin_block (ccn_bin6 full) (ctx.binInfo (ccn_bin6 full)) ++
  "\n🆔 <b>Checked by:</b> " ++ mention ctx.uid ctx.full_name

/-- The fallback text of `do_ccn` for an unusable response. -/
def ccn_fallback (ctx : Ctx) (full : String) : String :=
  ccn_base ctx full ++ "\n<b>Unable to process the card at the moment.</b>"

/-- The effects of `do_ccn` from admission up to the network call. -/
def ccn_pre (ctx : Ctx) (full : String) : List Effect :=
  [.acquire, .binLookup (ccn_bin6 full), .answer (ccn_base ctx full), .animStart,
   .netCall (BASE_CC_API ++ full)]

/-- The effects of the `finally:` block of `do_ccn`. -/
def ccn_fin : List Effect :=
  [.stopSignal, .sleep 100, .release, .answer ccn_gate_info]

/-- `do_ccn(message, state, db, bot)` from the source, for the user's
single message.  The oracle `ctx.net 0` stands for the one `fetch_json`
call; `ctx.finalEditOk` for the success of the final
`edit_message_text`. -/
def do_ccn (ctx : Ctx) (pm : ProcMap) : HResult :=
  match ctx.existing with
  | none =>
    ⟨pm, [.delete, .answer (start_message_text ctx.first_name ctx.uid false none)], false⟩
  | some user =>
    if ctx.maintenance && !ctx.in_admin_ids then
      ⟨pm, [.answer maintenance_text], false⟩
    else if ctx.fsm ≠ some .in_gate_ccn then
      ⟨pm, [.delete, .answer (start_message_text ctx.first_name ctx.uid true
        (if user.is_admin then none else some user.credits))], false⟩
    else
      match cc_re_match ctx.text with
      | none => ⟨pm, [.delete], false⟩
      | some g =>
        if !user.is_admin && user.credits < 1 then
          ⟨pm, [.answer insufficient_text], false⟩
        else if pm ctx.uid then
          ⟨pm, [.delete], false⟩
        else
          let pm1 : ProcMap := fun u => if u = ctx.uid then true else pm u
          match parse_cc g with
          | .error _ =>
            -- `parse_cc` raises before the try/finally: the slot stays held.
            ⟨pm1, [.acquire], true⟩
          | .ok none =>
            ⟨fun u => if u = ctx.uid then false else pm1 u, [.acquire, .release, .delete], false⟩
          | .ok (some full) =>
            match ctx.net 0 with
            | .err =>
              ⟨fun u => if u = ctx.uid then false else pm1 u,
               ccn_pre ctx full ++ ccn_fin, true⟩
            | .list (r :: _) =>
              let text := ccn_text ctx full r
              let mid : List Effect :=
                [.stopSignal, .sleep 200, .editMsg text] ++
                (if ctx.finalEditOk then [] else [.answer text]) ++
                (if ctx.channel_results then [.channelSend text] else []) ++
                (if user.is_admin then [] else [.debit 1])
              ⟨fun u => if u = ctx.uid then false else pm1 u,
               ccn_pre ctx full ++ mid ++ ccn_fin, false⟩
            | _ =>
              let mid : List Effect :=
                [.stopSignal, .sleep 200, .editMsg (ccn_fallback ctx full)] ++
                (if ctx.finalEditOk then [] else [.answer (ccn_fallback ctx full)])
              ⟨fun u => if u = ctx.uid then false else pm1 u,
               ccn_pre ctx full ++ mid ++ ccn_fin, false⟩

/-- The card-collection loop of `do_mccn` (parse each token, keep valid
ones, break once five are kept).  A `ValueError` from `parse_cc`
propagates. -/
def mccn_collect : List String → List String → Except Unit (List String)
  | [], acc => .ok acc
  | s :: rest, acc => do
    let p ← parse_cc s
    let acc := match p with
      | some c => acc ++ [c]
      | none => acc
    if 5 ≤ acc.length then .ok acc else mccn_collect rest acc

/-- `c.split('|')[0][:6]` for each card, first occurrence order, unique
(the `uniq_bins` dict). -/
def uniqBins (cards : List String) : List String :=
  cards.foldl (fun acc c =>
    let b6 := String.mk (((pySplitPipe c).headD "").data.take 6)
    if b6 ∈ acc then acc else acc ++ [b6]) []

/-- One batch result line for a failed fetch. -/
def unable_line (c : String) : String :=
  "❌ <b>Declined</b>\n💳 <code>" ++ c ++ "</code>\n╰┈➤ <b>Unable to process</b>\n━━━━━━━━━━━━━"

/-- One batch result line for a structured response entry. -/
def result_line (c : String) (r : RespEntry) : String :=
  classify_head (r.status.getD "") (r.message.getD "Result") ++
  "\n💳 <code>" ++ c ++ "</code>\n╰┈➤ <b>" ++ r.message.getD "Result" ++
  "</b>\n━━━━━━━━━━━━━"

/-- The sequential per-card verification loop of `do_mccn` (lines with
`for c in cards`): each card is fetched; exceptions and non-list or
empty responses become the Declined/Unable line; a structured response
is classified and, for non-admins, debits one credit. -/
def mccn_loop (isAdmin : Bool) (net : Nat → NetResult) :
    List String → Nat → List Effect × List String
  | [], _ => ([], [])
  | c :: rest, i =>
    let acc := mccn_loop isAdmin net rest (i + 1)
    match net i with
    | .list (r :: _) =>
      ([.netCall (BASE_CC_API ++ c)] ++ (if isAdmin then [] else [.debit 1]) ++ acc.1,
       result_line c r :: acc.2)
    | _ =>
      ([.netCall (BASE_CC_API ++ c)] ++ acc.1, unable_line c :: acc.2)

/-- The placeholder message `base` of `do_mccn`: one line per card, then
one BIN block per distinct prefix. -/
def mccn_base (ctx : Ctx) (cards : List String) : String :=
  String.intercalate "\n" (cards.map (fun c => "💳 <code>" ++ c ++ "</code>")) ++
  String.join ((uniqBins cards).map (fun b => format_bin_block b (ctx.binInfo b)))

/-- The final combined result text of `do_mccn`. -/
def mccn_final (ctx : Ctx) (isAdmin : Bool) (cards : List String) : String :=
  String.intercalate "\n" (mccn_loop isAdmin ctx.net cards 0).2 ++
  "\n🆔 <b>Checked by:</b> " ++ mention ctx.uid ctx.full_name

/-- Python `cards[:can]` where `can` may in principle be negative. -/
def pySliceTo (k : Int) (xs : List String) : List String :=
  if k < 0 then xs.take ((xs.length : Int) + k).toNat else xs.take k.toNat

/-- `do_mccn(message, state, db, bot)` from the source.  Note that the
batch handler never reads or writes `processing_users`; the map is
threaded through untouched. -/
def do_mccn (ctx : Ctx) (pm : ProcMap) : HResult :=
  match ctx.existing with
  | none =>
    ⟨pm, [.delete, .answer (start_message_text ctx.first_name ctx.uid false none)], false⟩
  | some user =>
    if ctx.maintenance && !ctx.in_admin_ids then
      ⟨pm, [.answer maintenance_text], false⟩
    else if ctx.fsm ≠ some .in_gate_mccn then
      ⟨pm, [.delete, .answer (start_message_text ctx.first_name ctx.uid true
        (if user.is_admin then none else some user.credits))], false⟩
    else
      match mass_re_match ctx.text with
      | none => ⟨pm, [.delete], false⟩
      | some g =>
        let credits : Int := if user.is_admin then 9999 else user.credits
        let raw := pyWords (pyReplaceNl g)
        match mccn_collect raw [] with
        | .error _ => ⟨pm, [], true⟩
        | .ok cards =>
          if cards.length < 2 then ⟨pm, [.delete], false⟩
          else
            let can : Int := min (cards.length : Int) credits
            if can = 0 then ⟨pm, [.answer insufficient_text], false⟩
            else
              let cards := pySliceTo can cards
              let trace :=
                (uniqBins cards).map Effect.binLookup ++
                [.answer (mccn_base ctx cards), .animStart] ++
                (mccn_loop user.is_admin ctx.net cards 0).1 ++
                [.stopSignal, .sleep 200, .editMsg (mccn_final ctx user.is_admin cards)] ++
                (if ctx.finalEditOk then []
                 else [.answer (mccn_final ctx user.is_admin cards)]) ++
                (if ctx.channel_results then
                  [.channelSend (mccn_final ctx user.is_admin cards)] else []) ++
                [.stopSignal, .sleep 100, .answer mccn_gate_info]
              ⟨pm, trace, false⟩

/-! ## Progress animator -/

/-- The rotating ellipsis `dots[i % 3]`. -/
def dotsAt (i : Nat) : String :=
  ([".", "..", "..."]).getD (i % 3) "."

/-- One animator edit attempt as written: `try: edit ... except: pass`.
The raw attempt may fail; the handler swallows the failure. -/
def anim_tick_raw (editOk : Bool) : Except Unit Unit :=
  if editOk then .ok () else .error ()

/-- The tick with its `except Exception: pass` wrapper. -/
def anim_tick (editOk : Bool) : Except Unit Unit :=
  match anim_tick_raw editOk with
  | .ok u => .ok u
  | .error _ => .ok ()

/-- `animate_processing` from the source, discretely: `fuel` loop
iterations run before the stop event is observed; `editOk i` tells
whether the `i`-th edit succeeds.  Returns the edit texts attempted. -/
def animate_processing (base : String) (editOk : Nat → Bool) :
    Nat → Nat → Except Unit (List String)
  | 0, _ => .ok []
  | fuel + 1, i => do
    let _ ← anim_tick (editOk i)
    let rest ← animate_processing base editOk fuel (i + 1)
    pure (("" ++ base ++ "\n🔄 Processing" ++ dotsAt i) :: rest)

/-! ## Animator/finaliser interleaving

The stop-then-settle-then-final-edit protocol, as a two-task
interleaving.  The animator's guarded tick (check `stop`, then edit) is
one atomic action here; the settle delay is the source's provision for
an edit already in flight at signal time, which a discrete scheduler
cannot time. -/

/-- Which task the scheduler runs next. -/
inductive ATask
  | anim
  | fin
deriving DecidableEq

/-- Shared state: the stop event, and the finaliser's program counter
(`0`: before `stop.set()`; `1`: before the settle sleep; `2`: before the
final edit; `3`: done). -/
structure ASt where
  stop : Bool
  finPC : Nat

/-- Observable events of the interleaving. -/
inductive AEvent
  | tick
  | stopSet
  | settle
  | finalEdit
deriving DecidableEq

/-- One scheduled step of one task. -/
def astep (st : ASt) : ATask → ASt × Option AEvent
  | .anim => if st.stop then (st, none) else (st, some .tick)
  | .fin =>
    match st.finPC with
    | 0 => ({ st with stop := true, finPC := 1 }, some .stopSet)
    | 1 => ({ st with finPC := 2 }, some .settle)
    | 2 => ({ st with finPC := 3 }, some .finalEdit)
    | _ => (st, none)

/-- Run a schedule, collecting the event trace. -/
def arun (st : ASt) : List ATask → List AEvent
  | [] => []
  | t :: ts =>
    match astep st t with
    | (st', some ev) => ev :: arun st' ts
    | (st', none) => arun st' ts

/-- No `tick` occurs after a `finalEdit` in the trace. -/
def noTickAfterFinal : List AEvent → Bool → Bool
  | [], _ => true
  | .finalEdit :: rest, _ => noTickAfterFinal rest true
  | .tick :: rest, seen => !seen && noTickAfterFinal rest seen
  | _ :: rest, seen => noTickAfterFinal rest seen

/-- Scanner for the stop-then-settle-then-edit discipline: every
`editMsg` in a handler trace is preceded by a `stopSignal` immediately
followed by a sleep. -/
def editsAfterSettle : List Effect → Bool → Bool
  | [], _ => true
  | .stopSignal :: .sleep _ :: rest, _ => editsAfterSettle rest true
  | .editMsg _ :: rest, ok => ok && editsAfterSettle rest ok
  | _ :: rest, ok => editsAfterSettle rest ok

/-! ## Trace observers and claim-side (specification) definitions -/

/-- The URLs of the network calls in a trace, in order. -/
def netCallsOf (tr : List Effect) : List String :=
  tr.filterMap (fun e => match e with
    | .netCall u => some u
    | _ => none)

/-- The debits in a trace, in order. -/
def debitsOf (tr : List Effect) : List Int :=
  tr.filterMap (fun e => match e with
    | .debit a => some a
    | _ => none)

/-- Whether an effect shows the user a text containing the given phrase. -/
def showsPhrase (phrase : String) (e : Effect) : Bool :=
  match e with
  | .answer t => pyIn phrase t
  | .editMsg t => pyIn phrase t
  | _ => false

/-- `parse_cc` as an `Option` (what the batch loop keeps); `none` for
both rejection and exception, so it matches the loop only on inputs
that do not raise. -/
def parseOkTok (s : String) : Option String :=
  match parse_cc s with
  | .ok p => p
  | .error _ => none

/-- Replace the first element of a list. -/
def modHead (f : α → α) : List α → List α
  | [] => []
  | a :: l => f a :: l

/-- Replace the last element of a list. -/
def modLast (f : α → α) : List α → List α
  | [] => []
  | [a] => [f a]
  | a :: l => a :: modLast f l

/-- Claim-side notion of the input's fields: split the raw input on
pipes and trim each field ("after trimming each field, it has exactly 4
pipe-separated fields"). -/
def claimFields (cc : String) : List String :=
  (splitPipeChars cc.data).map (fun f => String.mk (stripChars f))

/-- Claim-side "all digits": a nonempty string of decimal digits. -/
def isDecimalString (s : String) : Bool :=
  s.data.length != 0 && s.data.all Char.isDigit

/-- Claim-side mod-10 (Luhn) checksum: sum, from the right, each digit,
doubling every second one and subtracting 9 when the double exceeds 9;
valid iff the total is divisible by 10. -/
def luhnSpecOk (c : String) : Bool :=
  (c.data.reverse.enum.map luhnContrib).sum % 10 = 0

/-- The acceptance condition exactly as the claim states it: after
trimming each field there are exactly 4 pipe-separated fields, every
field is all digits, the number has 12–19 digits and passes the mod-10
checksum, and the month is in `[1, 12]`. -/
def claimAccepts (cc : String) : Bool :=
  match claimFields cc with
  | [c, m, y, cvv] =>
    isDecimalString c && isDecimalString m && isDecimalString y && isDecimalString cvv &&
    (12 ≤ c.data.length && c.data.length ≤ 19) && luhnSpecOk c &&
    (1 ≤ decimalVal m && decimalVal m ≤ 12)
  | _ => false

/-- Claim-side description of the kept batch tokens: split the
submission on whitespace (newlines normalised to spaces), keep only the
tokens the parser accepts, cap the kept list at 5. -/
def keptCards (g : String) : List String :=
  ((pyWords (pyReplaceNl g)).filterMap parseOkTok).take 5

/-! ## Lemmas: whitespace stripping commutes with pipe splitting -/

theorem pyIsSpace_ne_pipe {c : Char} (h : pyIsSpace c = true) : c ≠ '|' := by
  intro he
  subst he
  exact absurd h (by decide)

theorem mem_dropWhile {p : Char → Bool} {s : List Char} {c : Char}
    (h : c ∈ s.dropWhile p) : c ∈ s := by
  induction s with
  | nil => simp at h
  | cons a l ih =>
    rw [List.dropWhile_cons] at h
    by_cases hp : p a
    · simp only [hp, if_true] at h
      exact List.mem_cons_of_mem _ (ih h)
    · simp only [hp, if_false] at h
      exact h

theorem mem_rdropWs {s : List Char} {c : Char} (h : c ∈ rdropWs s) : c ∈ s := by
  induction s with
  | nil => simp [rdropWs] at h
  | cons a l ih =>
    rw [rdropWs] at h
    cases hr : rdropWs l with
    | nil =>
      rw [hr] at h
      by_cases hws : pyIsSpace a
      · simp [hws] at h
      · simp [hws] at h
        simp [h]
    | cons b r =>
      rw [hr] at h
      rcases List.mem_cons.mp h with h1 | h2
      · simp [h1]
      · exact List.mem_cons_of_mem _ (ih (by rw [hr]; exact h2))

theorem mem_stripChars {s : List Char} {c : Char} (h : c ∈ stripChars s) : c ∈ s :=
  mem_dropWhile (mem_rdropWs h)

theorem rdropWs_eq_nil_iff {s : List Char} :
    rdropWs s = [] ↔ ∀ c ∈ s, pyIsSpace c = true := by
  induction s with
  | nil => simp [rdropWs]
  | cons a l ih =>
    rw [rdropWs]
    cases hr : rdropWs l with
    | nil =>
      have hl : ∀ c ∈ l, pyIsSpace c = true := ih.mp hr
      by_cases hws : pyIsSpace a
      · simp only [hws, if_true]
        constructor
        · intro _ c hc
          rcases List.mem_cons.mp hc with h1 | h2
          · simpa [h1] using hws
          · exact hl c h2
        · intro _
          trivial
      · simp only [hws, if_false]
        constructor
        · intro h
          exact absurd h (by simp)
        · intro h
          exact absurd (h a (List.mem_cons_self a l)) (by simp [hws])
    | cons b r =>
      constructor
      · intro h
        exact absurd h (by simp)
      · intro h
        have : rdropWs l = [] := ih.mpr (fun c hc => h c (List.mem_cons_of_mem _ hc))
        rw [hr] at this
        exact absurd this (by simp)

theorem dropWhile_eq_nil_of_all {s : List Char} (h : ∀ c ∈ s, pyIsSpace c = true) :
    s.dropWhile pyIsSpace = [] := by
  induction s with
  | nil => rfl
  | cons a l ih =>
    rw [List.dropWhile_cons]
    simp only [h a (List.mem_cons_self a l), if_true]
    exact ih (fun c hc => h c (List.mem_cons_of_mem _ hc))

theorem splitPipeChars_ne_nil (s : List Char) : splitPipeChars s ≠ [] := by
  induction s with
  | nil => simp [splitPipeChars]
  | cons a l ih =>
    rw [splitPipeChars]
    by_cases hp : a = '|'
    · simp [hp]
    · simp only [hp, if_false]
      cases h : splitPipeChars l <;> simp

theorem splitPipeChars_singleton {s f : List Char} (h : splitPipeChars s = [f]) :
    f = s := by
  induction s generalizing f with
  | nil =>
    simp [splitPipeChars] at h
    simp [h]
  | cons a l ih =>
    rw [splitPipeChars] at h
    by_cases hp : a = '|'
    · simp only [hp, if_true] at h
      have := splitPipeChars_ne_nil l
      rcases List.cons.injEq .. ▸ h with ⟨h1, h2⟩
      exact absurd h2 this
    · simp only [hp, if_false] at h
      cases hl : splitPipeChars l with
      | nil => exact absurd hl (splitPipeChars_ne_nil l)
      | cons g gs =>
        rw [hl] at h
        rcases List.cons.injEq .. ▸ h with ⟨h1, h2⟩
        subst h2
        have := ih (f := g) hl
        subst this
        simp [← h1]

theorem splitPipeChars_no_pipe {s : List Char} (h : ∀ c ∈ s, c ≠ '|') :
    splitPipeChars s = [s] := by
  induction s with
  | nil => rfl
  | cons a l ih =>
    rw [splitPipeChars]
    simp only [h a (List.mem_cons_self a l), if_false]
    rw [ih (fun c hc => h c (List.mem_cons_of_mem _ hc))]

theorem mem_splitPipeChars {s f : List Char} (hf : f ∈ splitPipeChars s) {c : Char}
    (hc : c ∈ f) : c ∈ s := by
  induction s generalizing f with
  | nil =>
    simp [splitPipeChars] at hf
    subst hf
    simp at hc
  | cons a l ih =>
    rw [splitPipeChars] at hf
    by_cases hp : a = '|'
    · simp only [hp, if_true] at hf
      rcases List.mem_cons.mp hf with h1 | h2
      · subst h1
        simp at hc
      · exact List.mem_cons_of_mem _ (ih h2 hc)
    · simp only [hp, if_false] at hf
      cases hl : splitPipeChars l with
      | nil => exact absurd hl (splitPipeChars_ne_nil l)
      | cons g gs =>
        rw [hl] at hf
        rcases List.mem_cons.mp hf with h1 | h2
        · subst h1
          rcases List.mem_cons.mp hc with h3 | h4
          · simp [h3]
          · exact List.mem_cons_of_mem _
              (ih (by rw [hl]; exact List.mem_cons_self g gs) h4)
        · exact List.mem_cons_of_mem _
            (ih (by rw [hl]; exact List.mem_cons_of_mem _ h2) hc)

theorem splitPipeChars_cons_pipe (l : List Char) :
    splitPipeChars ('|' :: l) = [] :: splitPipeChars l := by
  rw [splitPipeChars]
  simp

theorem splitPipeChars_cons_ne {a : Char} (hp : ¬ a = '|') {l g : List Char}
    {gs : List (List Char)} (hl : splitPipeChars l = g :: gs) :
    splitPipeChars (a :: l) = (a :: g) :: gs := by
  rw [splitPipeChars]
  simp only [hp, if_false, hl]

theorem splitPipeChars_dropWhile (s : List Char) :
    splitPipeChars (s.dropWhile pyIsSpace) =
      modHead (List.dropWhile pyIsSpace) (splitPipeChars s) := by
  induction s with
  | nil => rfl
  | cons a l ih =>
    rw [List.dropWhile_cons]
    by_cases hws : pyIsSpace a
    · have hp : ¬ a = '|' := pyIsSpace_ne_pipe hws
      simp only [hws, if_true]
      rw [ih]
      conv_rhs => rw [splitPipeChars]
      simp only [hp, if_false]
      cases hl : splitPipeChars l with
      | nil => exact absurd hl (splitPipeChars_ne_nil l)
      | cons g gs =>
        simp [hl, modHead, List.dropWhile_cons, hws]
    · rw [if_neg hws]
      by_cases hp : a = '|'
      · subst hp
        rw [splitPipeChars_cons_pipe]
        simp [modHead]
      · cases hl : splitPipeChars l with
        | nil => exact absurd hl (splitPipeChars_ne_nil l)
        | cons g gs =>
          rw [splitPipeChars_cons_ne hp hl]
          simp [modHead, List.dropWhile_cons, hws]

theorem modLast_cons₂ (f : α → α) (a b : α) (l : List α) :
    modLast f (a :: b :: l) = a :: modLast f (b :: l) := rfl

theorem splitPipeChars_rdropWs (s : List Char) :
    splitPipeChars (rdropWs s) = modLast rdropWs (splitPipeChars s) := by
  induction s with
  | nil => rfl
  | cons a l ih =>
    cases hr : rdropWs l with
    | nil =>
      have hall : ∀ c ∈ l, pyIsSpace c = true := rdropWs_eq_nil_iff.mp hr
      have hnp : ∀ c ∈ l, c ≠ '|' := fun c hc => pyIsSpace_ne_pipe (hall c hc)
      have hsl : splitPipeChars l = [l] := splitPipeChars_no_pipe hnp
      by_cases hws : pyIsSpace a
      · have hra : rdropWs (a :: l) = [] := by rw [rdropWs, hr, if_pos hws]
        have hap : ¬ a = '|' := pyIsSpace_ne_pipe hws
        rw [hra, splitPipeChars_cons_ne hap hsl]
        show [[]] = [rdropWs (a :: l)]
        rw [hra]
      · have hra : rdropWs (a :: l) = [a] := by rw [rdropWs, hr, if_neg hws]
        rw [hra]
        by_cases hap : a = '|'
        · subst hap
          rw [splitPipeChars_cons_pipe, splitPipeChars_cons_pipe, hsl]
          show ([[], []] : List (List Char)) = [[], rdropWs l]
          rw [hr]
        · rw [splitPipeChars_cons_ne hap hsl,
              splitPipeChars_no_pipe (s := [a])
                (by intro c hc; rcases List.mem_singleton.mp hc with rfl; exact hap)]
          show [[a]] = [rdropWs (a :: l)]
          rw [rdropWs, hr, if_neg hws]
    | cons b r =>
      have hra : rdropWs (a :: l) = a :: rdropWs l := by
        rw [rdropWs, hr]
      rw [hra]
      by_cases hap : a = '|'
      · subst hap
        rw [splitPipeChars_cons_pipe, splitPipeChars_cons_pipe, ih]
        cases hsl : splitPipeChars l with
        | nil => exact absurd hsl (splitPipeChars_ne_nil l)
        | cons g gs => rw [modLast_cons₂]
      · cases hsl : splitPipeChars l with
        | nil => exact absurd hsl (splitPipeChars_ne_nil l)
        | cons g gs =>
          cases gs with
          | nil =>
            have hgl : g = l := splitPipeChars_singleton hsl
            subst hgl
            have hsr : splitPipeChars (rdropWs g) = [rdropWs g] := by
              rw [ih, hsl]
              rfl
            rw [splitPipeChars_cons_ne hap hsr, splitPipeChars_cons_ne hap hsl]
            show [a :: rdropWs g] = [rdropWs (a :: g)]
            rw [rdropWs, hr]
          | cons g2 gs2 =>
            have hsr : splitPipeChars (rdropWs l) = g :: modLast rdropWs (g2 :: gs2) := by
              rw [ih, hsl, modLast_cons₂]
            rw [splitPipeChars_cons_ne hap hsr, splitPipeChars_cons_ne hap hsl,
                modLast_cons₂]

theorem dropWhile_rdropWs_comm (s : List Char) :
    (rdropWs s).dropWhile pyIsSpace = rdropWs (s.dropWhile pyIsSpace) := by
  induction s with
  | nil => rfl
  | cons a l ih =>
    rw [List.dropWhile_cons]
    by_cases hws : pyIsSpace a
    · rw [if_pos hws]
      cases hr : rdropWs l with
      | nil =>
        have hra : rdropWs (a :: l) = [] := by rw [rdropWs, hr, if_pos hws]
        rw [hra, ← ih, hr]
      | cons b r =>
        have hra : rdropWs (a :: l) = a :: rdropWs l := by rw [rdropWs, hr]
        rw [hra, List.dropWhile_cons, if_pos hws, ih]
    · rw [if_neg hws]
      cases hr : rdropWs l with
      | nil =>
        have hra : rdropWs (a :: l) = [a] := by rw [rdropWs, hr, if_neg hws]
        rw [hra, List.dropWhile_cons, if_neg hws]
      | cons b r =>
        have hra : rdropWs (a :: l) = a :: rdropWs l := by rw [rdropWs, hr]
        rw [hra, List.dropWhile_cons, if_neg hws]

theorem dropWhile_pyIsSpace_idem (s : List Char) :
    (s.dropWhile pyIsSpace).dropWhile pyIsSpace = s.dropWhile pyIsSpace := by
  induction s with
  | nil => rfl
  | cons a l ih =>
    rw [List.dropWhile_cons]
    by_cases hws : pyIsSpace a
    · rw [if_pos hws, ih]
    · rw [if_neg hws, List.dropWhile_cons, if_neg hws]

theorem rdropWs_idem (s : List Char) : rdropWs (rdropWs s) = rdropWs s := by
  induction s with
  | nil => rfl
  | cons a l ih =>
    cases hr : rdropWs l with
    | nil =>
      by_cases hws : pyIsSpace a
      · have hra : rdropWs (a :: l) = [] := by rw [rdropWs, hr, if_pos hws]
        rw [hra]
        rfl
      · have hra : rdropWs (a :: l) = [a] := by rw [rdropWs, hr, if_neg hws]
        have h1 : rdropWs [a] = [a] := by
          rw [rdropWs]
          rw [show rdropWs ([] : List Char) = [] from rfl, if_neg hws]
        rw [hra, h1]
    | cons b r =>
      have hra : rdropWs (a :: l) = a :: rdropWs l := by rw [rdropWs, hr]
      rw [hra, rdropWs, ih, hr]

theorem stripChars_dropWhile (s : List Char) :
    stripChars (s.dropWhile pyIsSpace) = stripChars s := by
  unfold stripChars
  rw [dropWhile_pyIsSpace_idem]

theorem stripChars_rdropWs (s : List Char) :
    stripChars (rdropWs s) = stripChars s := by
  unfold stripChars
  rw [← dropWhile_rdropWs_comm, ← dropWhile_rdropWs_comm]
  rw [rdropWs_idem]

theorem map_stripChars_modHead (L : List (List Char)) :
    (modHead (List.dropWhile pyIsSpace) L).map stripChars = L.map stripChars := by
  cases L with
  | nil => rfl
  | cons a l =>
    show stripChars (a.dropWhile pyIsSpace) :: l.map stripChars = stripChars a :: l.map stripChars
    rw [stripChars_dropWhile]

theorem map_stripChars_modLast (L : List (List Char)) :
    (modLast rdropWs L).map stripChars = L.map stripChars := by
  induction L with
  | nil => rfl
  | cons a l ih =>
    cases l with
    | nil =>
      show [stripChars (rdropWs a)] = [stripChars a]
      rw [stripChars_rdropWs]
    | cons b r =>
      rw [modLast_cons₂]
      show stripChars a :: (modLast rdropWs (b :: r)).map stripChars =
        stripChars a :: (b :: r).map stripChars
      rw [ih]

theorem map_strip_splitPipe_strip (s : List Char) :
    (splitPipeChars (stripChars s)).map stripChars =
      (splitPipeChars s).map stripChars := by
  have h : stripChars s = rdropWs (s.dropWhile pyIsSpace) := rfl
  rw [h, splitPipeChars_rdropWs, splitPipeChars_dropWhile,
     map_stripChars_modLast, map_stripChars_modHead]

theorem fields_strip_eq (cc : String) :
    (pySplitPipe (pyStrip cc)).map pyStrip = claimFields cc := by
  show ((splitPipeChars (stripChars cc.data)).map String.mk).map pyStrip =
    (splitPipeChars cc.data).map (fun f => String.mk (stripChars f))
  rw [List.map_map]
  have h1 : pyStrip ∘ String.mk = fun l => String.mk (stripChars l) := rfl
  rw [h1]
  have h2 : ∀ (L : List (List Char)),
      L.map (fun l => String.mk (stripChars l)) = (L.map stripChars).map String.mk := by
    intro L
    rw [List.map_map]
    rfl
  rw [h2, h2, map_strip_splitPipe_strip]

/-! ## Lemmas: digits, `int()`, and the Luhn fold -/

theorem isDigit_of_pyIsDigitChar {c : Char} (h1 : pyIsDigitChar c = true)
    (h2 : nonDecimalDigit c = false) : c.isDigit = true := by
  unfold nonDecimalDigit at h2
  rw [h1] at h2
  simpa using h2

theorem all_digit_eq {l : List Char} (h : ∀ c ∈ l, nonDecimalDigit c = false) :
    l.all pyIsDigitChar = l.all Char.isDigit := by
  induction l with
  | nil => rfl
  | cons a t ih =>
    rw [List.all_cons, List.all_cons, ih (fun c hc => h c (List.mem_cons_of_mem _ hc))]
    have ha := h a (List.mem_cons_self a t)
    by_cases hd : a.isDigit = true
    · rw [hd, show pyIsDigitChar a = true by unfold pyIsDigitChar; rw [hd]; rfl]
    · have h0 : a.isDigit = false := by simpa using hd
      have h1 : pyIsDigitChar a = false := by
        cases hpc : pyIsDigitChar a
        · rfl
        · unfold nonDecimalDigit at ha
          rw [hpc, h0] at ha
          exact absurd ha (by simp)
      rw [h0, h1]

theorem pyIsDigit_eq_isDecimal {s : String}
    (h : ∀ c ∈ s.data, nonDecimalDigit c = false) :
    pyIsDigit s = isDecimalString s := by
  unfold pyIsDigit isDecimalString
  rw [all_digit_eq h]

theorem mem_field_chars {cc ci : String} (hmem : ci ∈ pySplitPipe (pyStrip cc))
    {ch : Char} (hch : ch ∈ (pyStrip ci).data) : ch ∈ cc.data := by
  unfold pySplitPipe at hmem
  rcases List.mem_map.mp hmem with ⟨li, hli, rfl⟩
  have hch' : ch ∈ stripChars li := hch
  have h1 : ch ∈ li := mem_stripChars hch'
  have h2 : ch ∈ stripChars cc.data := mem_splitPipeChars hli h1
  exact mem_stripChars h2

theorem field_digits {cc f : String} (hmem : f ∈ pySplitPipe (pyStrip cc))
    (hd : ∀ ch ∈ cc.data, nonDecimalDigit ch = false)
    (hf : pyIsDigit (pyStrip f) = true) :
    ∀ ch ∈ (pyStrip f).data, ch.isDigit = true := by
  intro ch hch
  unfold pyIsDigit at hf
  simp only [Bool.and_eq_true] at hf
  have h2 : pyIsDigitChar ch = true := List.all_eq_true.mp hf.2 ch hch
  have h3 : ch ∈ cc.data := by
    have : (pyStrip (pyStrip f)).data = (pyStrip f).data := by
      show stripChars (stripChars f.data) = stripChars f.data
      have h4 : stripChars (stripChars f.data) =
          stripChars (rdropWs (f.data.dropWhile pyIsSpace)) := rfl
      rw [h4, stripChars_rdropWs, stripChars_dropWhile]
    exact mem_field_chars hmem (this ▸ hch)
  exact isDigit_of_pyIsDigitChar h2 (hd ch h3)

theorem intStep_ok {acc : Nat} {c : Char} (h : c.isDigit = true) :
    intStep acc c = .ok (acc * 10 + (c.toNat - 48)) := by
  unfold intStep pyIntOfDigitChar
  rw [if_pos h]
  rfl

theorem foldlM_intStep {l : List Char} (h : ∀ c ∈ l, c.isDigit = true) (acc : Nat) :
    l.foldlM intStep acc = .ok (l.foldl (fun a c => a * 10 + (c.toNat - 48)) acc) := by
  induction l generalizing acc with
  | nil => rfl
  | cons a t ih =>
    rw [List.foldlM_cons, intStep_ok (h a (List.mem_cons_self a t))]
    show t.foldlM intStep (acc * 10 + (a.toNat - 48)) = _
    rw [ih (fun c hc => h c (List.mem_cons_of_mem _ hc))]
    rfl

theorem pyIntOfDigits_eq {s : String} (h : ∀ c ∈ s.data, c.isDigit = true) :
    pyIntOfDigits s = .ok (decimalVal s) := by
  unfold pyIntOfDigits decimalVal
  exact foldlM_intStep h 0

theorem luhnStep_ok {acc : Nat} {p : Nat × Char} (h : p.2.isDigit = true) :
    luhnStep acc p = .ok (acc + luhnContrib p) := by
  unfold luhnStep pyIntOfDigitChar luhnContrib
  rw [if_pos h]
  rfl

theorem foldlM_luhnStep {l : List (Nat × Char)} (h : ∀ p ∈ l, (p.2).isDigit = true)
    (acc : Nat) :
    l.foldlM luhnStep acc = .ok (acc + (l.map luhnContrib).sum) := by
  induction l generalizing acc with
  | nil => simp; rfl
  | cons a t ih =>
    rw [List.foldlM_cons, luhnStep_ok (h a (List.mem_cons_self a t))]
    show t.foldlM luhnStep (acc + luhnContrib a) = _
    rw [ih (fun p hp => h p (List.mem_cons_of_mem _ hp))]
    rw [List.map_cons, List.sum_cons]
    rw [Nat.add_assoc]

theorem snd_mem_of_mem_enum {l : List α} {p : Nat × α} (h : p ∈ l.enum) : p.2 ∈ l := by
  have he := List.enum_map_snd l
  rw [← he]
  exact List.mem_map_of_mem Prod.snd h

theorem luhn_valid_eq {c : String} (hd : ∀ ch ∈ c.data, ch.isDigit = true)
    (hne : pyIsDigit c = true) :
    luhn_valid c =
      .ok ((12 ≤ c.data.length && c.data.length ≤ 19) && luhnSpecOk c) := by
  unfold luhn_valid
  rw [hne]
  simp only [Bool.not_true, Bool.false_eq_true, if_false]
  by_cases hL : (decide (12 ≤ c.data.length) && decide (c.data.length ≤ 19)) = true
  · rw [hL]
    simp only [Bool.not_true, Bool.false_eq_true, if_false]
    have hdig : ∀ p ∈ c.data.reverse.enum, (p.2 : Char).isDigit = true := by
      intro p hp
      exact hd p.2 (List.mem_reverse.mp (snd_mem_of_mem_enum hp))
    rw [foldlM_luhnStep hdig 0]
    show Except.ok
        (decide ((0 + (c.data.reverse.enum.map luhnContrib).sum) % 10 = 0)) = _
    rw [Nat.zero_add]
    unfold luhnSpecOk
    rw [Bool.true_and]
  · have hL' : (decide (12 ≤ c.data.length) && decide (c.data.length ≤ 19)) = false := by
      simpa using hL
    rw [hL']
    simp only [Bool.not_false, if_true, Bool.false_and]

/-! ## Lemmas: full characterisation of `parse_cc` -/

theorem except_bind_ok {α β : Type} (x : α) (f : α → Except Unit β) :
    (Except.ok x >>= f) = f x := rfl

theorem except_pure {α : Type} (x : α) : (pure x : Except Unit α) = Except.ok x := rfl

theorem parse_cc_four {cc c0 m0 y0 cvv0 : String}
    (hS : pySplitPipe (pyStrip cc) = [c0, m0, y0, cvv0])
    (hd : ∀ ch ∈ cc.data, nonDecimalDigit ch = false) :
    parse_cc cc = .ok (
      if pyIsDigit (pyStrip c0) && pyIsDigit (pyStrip m0) && pyIsDigit (pyStrip y0) &&
         pyIsDigit (pyStrip cvv0) &&
         (12 ≤ (pyStrip c0).data.length && (pyStrip c0).data.length ≤ 19) &&
         luhnSpecOk (pyStrip c0) &&
         (1 ≤ decimalVal (pyStrip m0) && decimalVal (pyStrip m0) ≤ 12)
      then some (pyStrip c0 ++ "|" ++ pyStrip m0 ++ "|" ++
        (if (pyStrip y0).data.length = 2 then "20" ++ pyStrip y0 else pyStrip y0) ++
        "|" ++ pyStrip cvv0)
      else none) := by
  have hmc : c0 ∈ pySplitPipe (pyStrip cc) := by rw [hS]; simp
  have hmm : m0 ∈ pySplitPipe (pyStrip cc) := by rw [hS]; simp
  unfold parse_cc
  simp only [hS]
  cases hc : pyIsDigit (pyStrip c0) with
  | false => simp [hc]
  | true =>
    cases hm : pyIsDigit (pyStrip m0) with
    | false => simp [hc, hm]
    | true =>
      cases hy : pyIsDigit (pyStrip y0) with
      | false => simp [hc, hm, hy]
      | true =>
        cases hv : pyIsDigit (pyStrip cvv0) with
        | false => simp [hc, hm, hy, hv]
        | true =>
          simp only [hc, hm, hy, hv, Bool.not_true, Bool.or_self, Bool.or_false,
            Bool.false_or, Bool.true_and, if_false, Bool.false_eq_true]
          rw [luhn_valid_eq (field_digits hmc hd hc) hc]
          rw [pyIntOfDigits_eq (field_digits hmm hd hm)]
          cases hlen : (decide (12 ≤ (pyStrip c0).data.length) &&
              decide ((pyStrip c0).data.length ≤ 19)) with
          | false => simp [hlen, except_bind_ok, except_pure]
          | true =>
            cases hspec : luhnSpecOk (pyStrip c0) with
            | false => simp [hlen, hspec, except_bind_ok, except_pure]
            | true =>
              simp only [hlen, hspec, Bool.and_true, Bool.true_and, Bool.not_true,
                Bool.false_eq_true, if_false, except_bind_ok]
              by_cases hmon : 1 ≤ decimalVal (pyStrip m0) ∧ decimalVal (pyStrip m0) ≤ 12
              · have h1 : (decide (decimalVal (pyStrip m0) < 1) ||
                    decide (12 < decimalVal (pyStrip m0))) = false := by
                  simp only [Bool.or_eq_false_iff, decide_eq_false_iff_not]
                  omega
                have h2 : (decide (1 ≤ decimalVal (pyStrip m0)) &&
                    decide (decimalVal (pyStrip m0) ≤ 12)) = true := by
                  simp only [Bool.and_eq_true, decide_eq_true_eq]
                  omega
                rw [h1, h2]
                rfl
              · have h1 : (decide (decimalVal (pyStrip m0) < 1) ||
                    decide (12 < decimalVal (pyStrip m0))) = true := by
                  simp only [Bool.or_eq_true, decide_eq_true_eq]
                  omega
                have h2 : (decide (1 ≤ decimalVal (pyStrip m0)) &&
                    decide (decimalVal (pyStrip m0) ≤ 12)) = false := by
                  by_cases ha : 1 ≤ decimalVal (pyStrip m0)
                  · have hb : ¬ decimalVal (pyStrip m0) ≤ 12 := by omega
                    simp [ha, hb]
                  · simp [ha]
                rw [h1, h2]
                rfl

theorem except_bind_error {α β : Type} (e : Unit) (f : α → Except Unit β) :
    ((Except.error e : Except Unit α) >>= f) = Except.error e := rfl

theorem four_fields_of_length {L : List String} (h : L.length = 4) :
    ∃ a b c d, L = [a, b, c, d] := by
  rcases L with _ | ⟨a, _ | ⟨b, _ | ⟨c, _ | ⟨d, _ | ⟨e, r⟩⟩⟩⟩⟩
  · simp at h
  · simp at h
  · simp at h
  · simp at h
  · exact ⟨a, b, c, d, rfl⟩
  · simp only [List.length_cons, List.length_nil] at h
    omega

theorem parse_cc_not_four {cc : String}
    (h : (pySplitPipe (pyStrip cc)).length ≠ 4) : parse_cc cc = .ok none := by
  unfold parse_cc
  cases hS : pySplitPipe (pyStrip cc) with
  | nil => rfl
  | cons c0 t =>
    cases t with
    | nil => rfl
    | cons m0 t =>
      cases t with
      | nil => rfl
      | cons y0 t =>
        cases t with
        | nil => rfl
        | cons cvv0 t =>
          cases t with
          | nil => exact absurd (by rw [hS]; rfl) h
          | cons e rest => rfl

theorem parse_cc_no_error {cc : String}
    (hd : ∀ ch ∈ cc.data, nonDecimalDigit ch = false) : parse_cc cc ≠ .error () := by
  by_cases h4 : (pySplitPipe (pyStrip cc)).length = 4
  · rcases four_fields_of_length h4 with ⟨c0, m0, y0, cvv0, hS⟩
    rw [parse_cc_four hS hd]
    exact fun hcontra => Except.noConfusion hcontra
  · rw [parse_cc_not_four h4]
    exact fun hcontra => Except.noConfusion hcontra

theorem ok_if_some_iff {B : Bool} {s : String} :
    (∃ r, (Except.ok (if B = true then some s else none) : Except Unit (Option String)) =
      .ok (some r)) ↔ B = true := by
  cases B
  · simp
  · simp

theorem parse_cc_accepts_iff {cc : String}
    (hd : ∀ ch ∈ cc.data, nonDecimalDigit ch = false) :
    (∃ r, parse_cc cc = .ok (some r)) ↔ claimAccepts cc = true := by
  have hfe := fields_strip_eq cc
  by_cases h4 : (pySplitPipe (pyStrip cc)).length = 4
  · rcases four_fields_of_length h4 with ⟨c0, m0, y0, cvv0, hS⟩
    have hcf : claimFields cc = [pyStrip c0, pyStrip m0, pyStrip y0, pyStrip cvv0] := by
      rw [← hfe, hS]
      rfl
    have hm1 : c0 ∈ pySplitPipe (pyStrip cc) := by rw [hS]; simp
    have hm2 : m0 ∈ pySplitPipe (pyStrip cc) := by rw [hS]; simp
    have hm3 : y0 ∈ pySplitPipe (pyStrip cc) := by rw [hS]; simp
    have hm4 : cvv0 ∈ pySplitPipe (pyStrip cc) := by rw [hS]; simp
    have e1 : isDecimalString (pyStrip c0) = pyIsDigit (pyStrip c0) :=
      (pyIsDigit_eq_isDecimal (fun ch hch => hd ch (mem_field_chars hm1 hch))).symm
    have e2 : isDecimalString (pyStrip m0) = pyIsDigit (pyStrip m0) :=
      (pyIsDigit_eq_isDecimal (fun ch hch => hd ch (mem_field_chars hm2 hch))).symm
    have e3 : isDecimalString (pyStrip y0) = pyIsDigit (pyStrip y0) :=
      (pyIsDigit_eq_isDecimal (fun ch hch => hd ch (mem_field_chars hm3 hch))).symm
    have e4 : isDecimalString (pyStrip cvv0) = pyIsDigit (pyStrip cvv0) :=
      (pyIsDigit_eq_isDecimal (fun ch hch => hd ch (mem_field_chars hm4 hch))).symm
    rw [parse_cc_four hS hd]
    unfold claimAccepts
    simp only [hcf, e1, e2, e3, e4]
    exact ok_if_some_iff
  · rw [parse_cc_not_four h4]
    have hlen : (claimFields cc).length ≠ 4 := by
      rw [← hfe]
      simpa using h4
    constructor
    · intro ⟨r, hr⟩
      exact absurd (Except.ok.inj hr) (by simp)
    · intro hacc
      exfalso
      unfold claimAccepts at hacc
      rcases hL : claimFields cc with _ | ⟨a, _ | ⟨b, _ | ⟨c, _ | ⟨d, _ | ⟨e, r⟩⟩⟩⟩⟩ <;>
        rw [hL] at hacc <;> first
          | exact hlen (by rw [hL]; rfl)
          | simp at hacc

theorem parse_cc_some_shape {cc r : String} (h : parse_cc cc = .ok (some r)) :
    ∃ c0 m0 y0 cvv0, pySplitPipe (pyStrip cc) = [c0, m0, y0, cvv0] ∧
      claimFields cc = [pyStrip c0, pyStrip m0, pyStrip y0, pyStrip cvv0] ∧
      r = pyStrip c0 ++ "|" ++ pyStrip m0 ++ "|" ++
        (if (pyStrip y0).data.length = 2 then "20" ++ pyStrip y0 else pyStrip y0) ++
        "|" ++ pyStrip cvv0 := by
  by_cases h4 : (pySplitPipe (pyStrip cc)).length = 4
  · rcases four_fields_of_length h4 with ⟨c0, m0, y0, cvv0, hS⟩
    have hcf : claimFields cc = [pyStrip c0, pyStrip m0, pyStrip y0, pyStrip cvv0] := by
      rw [← fields_strip_eq cc, hS]
      rfl
    refine ⟨c0, m0, y0, cvv0, hS, hcf, ?_⟩
    unfold parse_cc at h
    simp only [hS] at h
    by_cases hdig : (!pyIsDigit (pyStrip c0) || !pyIsDigit (pyStrip m0) ||
        !pyIsDigit (pyStrip y0) || !pyIsDigit (pyStrip cvv0)) = true
    · rw [if_pos hdig] at h
      exact absurd (Except.ok.inj h) (by simp)
    · rw [if_neg hdig] at h
      cases hlv : luhn_valid (pyStrip c0) with
      | error e =>
        rw [hlv, except_bind_error] at h
        exact Except.noConfusion h
      | ok lv =>
        rw [hlv, except_bind_ok] at h
        cases lv with
        | false =>
          rw [if_pos (by rfl)] at h
          exact absurd (Except.ok.inj h) (by simp)
        | true =>
          rw [if_neg (by simp)] at h
          cases hmi : pyIntOfDigits (pyStrip m0) with
          | error e =>
            rw [hmi, except_bind_error] at h
            exact Except.noConfusion h
          | ok mi =>
            rw [hmi, except_bind_ok] at h
            by_cases hmon : (decide (mi < 1) || decide (12 < mi)) = true
            · rw [if_pos hmon] at h
              exact absurd (Except.ok.inj h) (by simp)
            · rw [if_neg hmon] at h
              have := Except.ok.inj h
              exact (Option.some.inj this).symm
  · rw [parse_cc_not_four h4] at h
    exact absurd (Except.ok.inj h) (by simp)

/-! ## Lemmas: ledger -/

theorem deduct_preserves_nonneg {db : Ledger} (h : ledgerNonneg db) (tg amount : Int) :
    ledgerNonneg (deduct_credits db tg amount) := by
  intro u c hc
  cases hdu : db u with
  | none =>
    simp only [deduct_credits, hdu] at hc
    exact Option.noConfusion hc
  | some creds =>
    simp only [deduct_credits, hdu] at hc
    by_cases hcond : (decide (u = tg) && sqlGe creds amount) = true
    · rw [if_pos hcond] at hc
      have h2 : sqlGe creds amount = true := ((Bool.and_eq_true _ _).mp hcond).2
      cases creds with
      | none => exact absurd h2 (by simp [sqlGe])
      | some c0 =>
        have hle : amount ≤ c0 := by simpa [sqlGe] using h2
        have hcc : c = c0 - amount := by
          have := Option.some.inj (Option.some.inj hc)
          simpa [coalesce0] using this.symm
        omega
    · rw [if_neg hcond] at hc
      have : creds = some c := Option.some.inj hc
      exact h u c (by rw [hdu, this])

theorem foldl_deduct_nonneg {db : Ledger} (h : ledgerNonneg db) (ops : List (Int × Int)) :
    ledgerNonneg (ops.foldl (fun d p => deduct_credits d p.1 p.2) db) := by
  induction ops generalizing db with
  | nil => exact h
  | cons p t ih =>
    rw [List.foldl_cons]
    exact ih (deduct_preserves_nonneg h p.1 p.2)

/-! ## Lemmas: classifier -/

theorem classify_head_of_marker {status message : String}
    (h : challenge_markers.any (fun k => pyIn k (pyUpper message)) = true) :
    classify_head status message = challenge_text := by
  simp only [classify_head, h, if_true]

theorem classify_head_challenge_iff (status message : String) :
    classify_head status message = challenge_text ↔
      challenge_markers.any (fun k => pyIn k (pyUpper message)) = true := by
  constructor
  · intro h
    by_contra hm
    have hm' : challenge_markers.any (fun k => pyIn k (pyUpper message)) = false := by
      simpa using hm
    simp only [classify_head] at h
    rw [hm'] at h
    by_cases h2 : (pyLower status = "succeeded" || pyLower status = "order_id" ||
        pyLower status = "requires_action") = true
    · rw [if_neg (by simp), if_pos h2] at h
      exact absurd h (by decide)
    · rw [if_neg (by simp), if_neg h2] at h
      by_cases h3 : pyIn "SECURITY CODE IS INCORRECT" (pyUpper message) = true
      · rw [if_pos h3] at h
        exact absurd h (by decide)
      · rw [if_neg h3] at h
        exact absurd h (by decide)
  · exact classify_head_of_marker

/-! ## Lemmas: the single-card gate -/

theorem cc_capture_chars {t g : String} (h : cc_re_match t = some g) :
    ∀ ch ∈ g.data, (ch.isDigit || ch = '|') = true := by
  intro ch hch
  simp only [cc_re_match] at h
  by_cases hp : "/ccn".data.isPrefixOf t.data = true
  · rw [if_pos hp] at h
    by_cases h1 : ((t.data.drop 4).takeWhile pyIsSpace).isEmpty = true
    · rw [if_pos h1] at h
      exact Option.noConfusion h
    · rw [if_neg h1] at h
      by_cases h2 : (((t.data.drop 4).dropWhile pyIsSpace).takeWhile
          (fun c => c.isDigit || c = '|')).isEmpty = true
      · rw [if_pos h2] at h
        exact Option.noConfusion h
      · rw [if_neg h2] at h
        have hg := Option.some.inj h
        rw [← hg] at hch
        exact List.mem_takeWhile_imp
          (p := fun c => c.isDigit || decide (c = '|')) hch
  · rw [if_neg hp] at h
    exact Option.noConfusion h

theorem cc_capture_no_error {t g : String} (h : cc_re_match t = some g) :
    parse_cc g ≠ .error () := by
  apply parse_cc_no_error
  intro ch hch
  rcases (by simpa using cc_capture_chars h ch hch : ch.isDigit = true ∨ ch = '|')
      with hd | hpipe
  · simp [nonDecimalDigit, hd]
  · subst hpipe
    decide

theorem ccn_insufficient (ctx : Ctx) (pm : ProcMap) (u : UserRec) (g : String)
    (hex : ctx.existing = some u)
    (hmaint : (ctx.maintenance && !ctx.in_admin_ids) = false)
    (hfsm : ctx.fsm = some GateState.in_gate_ccn)
    (hre : cc_re_match ctx.text = some g)
    (hadmin : u.is_admin = false)
    (hcred : u.credits < 1) :
    do_ccn ctx pm = ⟨pm, [Effect.answer insufficient_text], false⟩ := by
  simp [do_ccn, hex, hmaint, hfsm, hre, hadmin, hcred]

theorem ccn_busy_reject (ctx : Ctx) (pm : ProcMap) (u : UserRec) (g : String)
    (hex : ctx.existing = some u)
    (hmaint : (ctx.maintenance && !ctx.in_admin_ids) = false)
    (hfsm : ctx.fsm = some GateState.in_gate_ccn)
    (hre : cc_re_match ctx.text = some g)
    (hcred : (!u.is_admin && decide (u.credits < 1)) = false)
    (hbusy : pm ctx.uid = true) :
    do_ccn ctx pm = ⟨pm, [Effect.delete], false⟩ := by
  simp [do_ccn, hex, hmaint, hfsm, hre, hcred, hbusy]

theorem do_ccn_ok_trace (ctx : Ctx) (pm : ProcMap) (u : UserRec) (g full : String)
    (r : RespEntry) (rs : List RespEntry)
    (hex : ctx.existing = some u)
    (hmaint : (ctx.maintenance && !ctx.in_admin_ids) = false)
    (hfsm : ctx.fsm = some GateState.in_gate_ccn)
    (hre : cc_re_match ctx.text = some g)
    (hcred : (!u.is_admin && decide (u.credits < 1)) = false)
    (hfree : pm ctx.uid = false)
    (hparse : parse_cc g = .ok (some full))
    (hnet : ctx.net 0 = NetResult.list (r :: rs)) :
    do_ccn ctx pm =
      ⟨fun v => if v = ctx.uid then false
          else if v = ctx.uid then true else pm v,
       ccn_pre ctx full ++
       ([Effect.stopSignal, Effect.sleep 200, Effect.editMsg (ccn_text ctx full r)] ++
        (if ctx.finalEditOk then [] else [Effect.answer (ccn_text ctx full r)]) ++
        (if ctx.channel_results then [Effect.channelSend (ccn_text ctx full r)] else []) ++
        (if u.is_admin then [] else [Effect.debit 1])) ++
       ccn_fin,
       false⟩ := by
  simp [do_ccn, hex, hmaint, hfsm, hre, hcred, hfree, hparse, hnet]

theorem do_ccn_err_trace (ctx : Ctx) (pm : ProcMap) (u : UserRec) (g full : String)
    (hex : ctx.existing = some u)
    (hmaint : (ctx.maintenance && !ctx.in_admin_ids) = false)
    (hfsm : ctx.fsm = some GateState.in_gate_ccn)
    (hre : cc_re_match ctx.text = some g)
    (hcred : (!u.is_admin && decide (u.credits < 1)) = false)
    (hfree : pm ctx.uid = false)
    (hparse : parse_cc g = .ok (some full))
    (hnet : ctx.net 0 = NetResult.err) :
    do_ccn ctx pm =
      ⟨fun v => if v = ctx.uid then false
          else if v = ctx.uid then true else pm v,
       ccn_pre ctx full ++ ccn_fin,
       true⟩ := by
  simp [do_ccn, hex, hmaint, hfsm, hre, hcred, hfree, hparse, hnet]

theorem do_ccn_badresp_trace (ctx : Ctx) (pm : ProcMap) (u : UserRec) (g full : String)
    (hex : ctx.existing = some u)
    (hmaint : (ctx.maintenance && !ctx.in_admin_ids) = false)
    (hfsm : ctx.fsm = some GateState.in_gate_ccn)
    (hre : cc_re_match ctx.text = some g)
    (hcred : (!u.is_admin && decide (u.credits < 1)) = false)
    (hfree : pm ctx.uid = false)
    (hparse : parse_cc g = .ok (some full))
    (hnet : ctx.net 0 = NetResult.other ∨ ctx.net 0 = NetResult.list []) :
    do_ccn ctx pm =
      ⟨fun v => if v = ctx.uid then false
          else if v = ctx.uid then true else pm v,
       ccn_pre ctx full ++
       ([Effect.stopSignal, Effect.sleep 200, Effect.editMsg (ccn_fallback ctx full)] ++
        (if ctx.finalEditOk then [] else [Effect.answer (ccn_fallback ctx full)])) ++
       ccn_fin,
       false⟩ := by
  rcases hnet with hnet | hnet <;>
    simp [do_ccn, hex, hmaint, hfsm, hre, hcred, hfree, hparse, hnet]

theorem ccn_slot_released (ctx : Ctx) (pm : ProcMap) (hfree : pm ctx.uid = false) :
    (do_ccn ctx pm).pm ctx.uid = false := by
  cases hex : ctx.existing with
  | none => simp [do_ccn, hex, hfree]
  | some user =>
    by_cases hmaint : (ctx.maintenance && !ctx.in_admin_ids) = true
    · simp [do_ccn, hex, hmaint, hfree]
    · have hmaint' : (ctx.maintenance && !ctx.in_admin_ids) = false := by
        simpa using hmaint
      by_cases hfsm : ctx.fsm = some GateState.in_gate_ccn
      · cases hre : cc_re_match ctx.text with
        | none => simp [do_ccn, hex, hmaint', hfsm, hre, hfree]
        | some g =>
          by_cases hcred : (!user.is_admin && decide (user.credits < 1)) = true
          · simp [do_ccn, hex, hmaint', hfsm, hre, hcred, hfree]
          · have hcred' : (!user.is_admin && decide (user.credits < 1)) = false := by
              simpa using hcred
            cases hp : parse_cc g with
            | error e =>
              cases e
              exact absurd hp (cc_capture_no_error hre)
            | ok p =>
              cases p with
              | none => simp [do_ccn, hex, hmaint', hfsm, hre, hcred', hfree, hp]
              | some full =>
                cases hnet : ctx.net 0 with
                | err => simp [do_ccn, hex, hmaint', hfsm, hre, hcred', hfree, hp, hnet]
                | other => simp [do_ccn, hex, hmaint', hfsm, hre, hcred', hfree, hp, hnet]
                | list es =>
                  cases es with
                  | nil => simp [do_ccn, hex, hmaint', hfsm, hre, hcred', hfree, hp, hnet]
                  | cons r rs =>
                    simp [do_ccn, hex, hmaint', hfsm, hre, hcred', hfree, hp, hnet]
      · simp [do_ccn, hex, hmaint', hfsm, hfree]

/-! ## Lemmas: the batch gate -/

theorem mccn_ignores_slot (ctx : Ctx) (pm pm2 : ProcMap) :
    (do_mccn ctx pm).pm = pm ∧ (do_mccn ctx pm).trace = (do_mccn ctx pm2).trace ∧
      (do_mccn ctx pm).raised = (do_mccn ctx pm2).raised := by
  cases hex : ctx.existing with
  | none => simp [do_mccn, hex]
  | some user =>
    by_cases hmaint : (ctx.maintenance && !ctx.in_admin_ids) = true
    · simp [do_mccn, hex, hmaint]
    · have hmaint' : (ctx.maintenance && !ctx.in_admin_ids) = false := by
        simpa using hmaint
      by_cases hfsm : ctx.fsm = some GateState.in_gate_mccn
      · cases hre : mass_re_match ctx.text with
        | none => simp [do_mccn, hex, hmaint', hfsm, hre]
        | some g =>
          cases hcol : mccn_collect (pyWords (pyReplaceNl g)) [] with
          | error e => simp [do_mccn, hex, hmaint', hfsm, hre, hcol]
          | ok cards =>
            by_cases h2 : cards.length < 2
            · simp [do_mccn, hex, hmaint', hfsm, hre, hcol, h2]
            · by_cases hcan : min (cards.length : Int)
                  (if user.is_admin then 9999 else user.credits) = 0
              · simp [do_mccn, hex, hmaint', hfsm, hre, hcol, h2, hcan]
              · simp [do_mccn, hex, hmaint', hfsm, hre, hcol, h2, hcan]
      · simp [do_mccn, hex, hmaint', hfsm]

theorem do_mccn_reject (ctx : Ctx) (pm : ProcMap) (u : UserRec) (g : String)
    (cards : List String)
    (hex : ctx.existing = some u)
    (hmaint : (ctx.maintenance && !ctx.in_admin_ids) = false)
    (hfsm : ctx.fsm = some GateState.in_gate_mccn)
    (hre : mass_re_match ctx.text = some g)
    (hcol : mccn_collect (pyWords (pyReplaceNl g)) [] = .ok cards)
    (h2 : cards.length < 2) :
    do_mccn ctx pm = ⟨pm, [Effect.delete], false⟩ := by
  simp [do_mccn, hex, hmaint, hfsm, hre, hcol, h2]

theorem do_mccn_insufficient (ctx : Ctx) (pm : ProcMap) (u : UserRec) (g : String)
    (cards : List String)
    (hex : ctx.existing = some u)
    (hmaint : (ctx.maintenance && !ctx.in_admin_ids) = false)
    (hfsm : ctx.fsm = some GateState.in_gate_mccn)
    (hre : mass_re_match ctx.text = some g)
    (hcol : mccn_collect (pyWords (pyReplaceNl g)) [] = .ok cards)
    (h2 : ¬ cards.length < 2)
    (hcan : min (cards.length : Int) (if u.is_admin then 9999 else u.credits) = 0) :
    do_mccn ctx pm = ⟨pm, [Effect.answer insufficient_text], false⟩ := by
  simp [do_mccn, hex, hmaint, hfsm, hre, hcol, h2, hcan]

theorem do_mccn_main (ctx : Ctx) (pm : ProcMap) (u : UserRec) (g : String)
    (cards cards2 : List String)
    (hex : ctx.existing = some u)
    (hmaint : (ctx.maintenance && !ctx.in_admin_ids) = false)
    (hfsm : ctx.fsm = some GateState.in_gate_mccn)
    (hre : mass_re_match ctx.text = some g)
    (hcol : mccn_collect (pyWords (pyReplaceNl g)) [] = .ok cards)
    (h2 : ¬ cards.length < 2)
    (hcan : ¬ min (cards.length : Int) (if u.is_admin then 9999 else u.credits) = 0)
    (hc2 : cards2 = pySliceTo
      (min (cards.length : Int) (if u.is_admin then 9999 else u.credits)) cards) :
    do_mccn ctx pm =
      ⟨pm,
       (uniqBins cards2).map Effect.binLookup ++
       [Effect.answer (mccn_base ctx cards2), Effect.animStart] ++
       (mccn_loop u.is_admin ctx.net cards2 0).1 ++
       [Effect.stopSignal, Effect.sleep 200,
        Effect.editMsg (mccn_final ctx u.is_admin cards2)] ++
       (if ctx.finalEditOk then [] else [Effect.answer (mccn_final ctx u.is_admin cards2)]) ++
       (if ctx.channel_results then
         [Effect.channelSend (mccn_final ctx u.is_admin cards2)] else []) ++
       [Effect.stopSignal, Effect.sleep 100, Effect.answer mccn_gate_info],
       false⟩ := by
  subst hc2
  simp [do_mccn, hex, hmaint, hfsm, hre, hcol, h2, hcan]

theorem mccn_collect_eq {raw : List String} (h : ∀ s ∈ raw, parse_cc s ≠ .error ()) :
    ∀ {acc : List String}, acc.length < 5 →
    mccn_collect raw acc = .ok ((acc ++ raw.filterMap parseOkTok).take 5) := by
  induction raw with
  | nil =>
    intro acc hlen
    simp [mccn_collect, List.take_of_length_le (by omega : acc.length ≤ 5)]
  | cons s t ih =>
    intro acc hlen
    have hpk : ∀ p, parse_cc s = .ok p → parseOkTok s = p := by
      intro p hp
      simp [parseOkTok, hp]
    cases hp : parse_cc s with
    | error e =>
      cases e
      exact absurd hp (h s (List.mem_cons_self s t))
    | ok p =>
      cases p with
      | none =>
        have hstep : mccn_collect (s :: t) acc =
            (if 5 ≤ acc.length then Except.ok acc else mccn_collect t acc) := by
          rw [mccn_collect, hp, except_bind_ok]
        rw [hstep]
        rw [if_neg (by omega)]
        rw [ih (fun x hx => h x (List.mem_cons_of_mem _ hx)) hlen]
        simp [List.filterMap_cons, hpk none hp]
      | some c =>
        have hstep : mccn_collect (s :: t) acc =
            (if 5 ≤ (acc ++ [c]).length then Except.ok (acc ++ [c])
             else mccn_collect t (acc ++ [c])) := by
          rw [mccn_collect, hp, except_bind_ok]
        rw [hstep]
        by_cases h5 : 5 ≤ (acc ++ [c]).length
        · rw [if_pos h5]
          have hL : (acc ++ [c]).length = 5 := by
            simp only [List.length_append, List.length_cons, List.length_nil] at h5 ⊢
            omega
          have hrhs : (acc ++ (s :: t).filterMap parseOkTok).take 5 = acc ++ [c] := by
            rw [List.filterMap_cons]
            simp only [hpk (some c) hp]
            rw [show acc ++ (c :: t.filterMap parseOkTok) =
              (acc ++ [c]) ++ t.filterMap parseOkTok from by simp]
            rw [← hL, List.take_left]
          rw [hrhs]
        · rw [if_neg h5]
          rw [ih (fun x hx => h x (List.mem_cons_of_mem _ hx))
            (by simp only [List.length_append, List.length_cons, List.length_nil] at h5 ⊢
                omega)]
          have : acc ++ [c] ++ t.filterMap parseOkTok =
              acc ++ (s :: t).filterMap parseOkTok := by
            rw [List.filterMap_cons]
            simp only [hpk (some c) hp]
            simp
          rw [this]

theorem mccn_loop_netCalls (isAdmin : Bool) (net : Nat → NetResult)
    (cards : List String) : ∀ i : Nat,
    netCallsOf (mccn_loop isAdmin net cards i).1 =
      cards.map (fun c => BASE_CC_API ++ c) := by
  induction cards with
  | nil =>
    intro i
    rfl
  | cons c rest ih =>
    intro i
    cases hn : net i with
    | err => simpa [mccn_loop, hn, netCallsOf, List.filterMap_append] using ih (i + 1)
    | other => simpa [mccn_loop, hn, netCallsOf, List.filterMap_append] using ih (i + 1)
    | list es =>
      cases es with
      | nil => simpa [mccn_loop, hn, netCallsOf, List.filterMap_append] using ih (i + 1)
      | cons r rs =>
        cases isAdmin <;>
          simpa [mccn_loop, hn, netCallsOf, List.filterMap_append] using ih (i + 1)

theorem mccn_loop_length (isAdmin : Bool) (net : Nat → NetResult)
    (cards : List String) : ∀ i : Nat,
    (mccn_loop isAdmin net cards i).2.length = cards.length := by
  induction cards with
  | nil =>
    intro i
    rfl
  | cons c rest ih =>
    intro i
    cases hn : net i with
    | err => simpa [mccn_loop, hn] using ih (i + 1)
    | other => simpa [mccn_loop, hn] using ih (i + 1)
    | list es =>
      cases es with
      | nil => simpa [mccn_loop, hn] using ih (i + 1)
      | cons r rs => simpa [mccn_loop, hn] using ih (i + 1)

theorem mccn_loop_line (isAdmin : Bool) (net : Nat → NetResult)
    (cards : List String) : ∀ i j : Nat, j < cards.length →
    (mccn_loop isAdmin net cards i).2.getD j "" =
      (match net (i + j) with
       | NetResult.list (r :: _) => result_line (cards.getD j "") r
       | _ => unable_line (cards.getD j "")) := by
  induction cards with
  | nil =>
    intro i j hj
    simp at hj
  | cons c rest ih =>
    intro i j hj
    cases j with
    | zero =>
      rw [Nat.add_zero]
      cases hn : net i with
      | err => simp [mccn_loop, hn]
      | other => simp [mccn_loop, hn]
      | list es =>
        cases es with
        | nil => simp [mccn_loop, hn]
        | cons r rs => simp [mccn_loop, hn]
    | succ j' =>
      have hj' : j' < rest.length := by simpa using hj
      have harith : i + (j' + 1) = (i + 1) + j' := by omega
      rw [harith]
      have htail := ih (i + 1) j' hj'
      cases hn : net i with
      | err => simpa [mccn_loop, hn] using htail
      | other => simpa [mccn_loop, hn] using htail
      | list es =>
        cases es with
        | nil => simpa [mccn_loop, hn] using htail
        | cons r rs => simpa [mccn_loop, hn] using htail

theorem mccn_loop_debits (net : Nat → NetResult) (cards : List String) : ∀ i : Nat,
    debitsOf (mccn_loop false net cards i).1 =
      (cards.mapIdx (fun j _ => net (i + j))).filterMap
        (fun nr => match nr with
          | NetResult.list (_ :: _) => some (1 : Int)
          | _ => none) := by
  induction cards with
  | nil =>
    intro i
    rfl
  | cons c rest ih =>
    intro i
    rw [List.mapIdx_cons]
    have hfun : (List.mapIdx (fun k (_ : String) => net (i + (k + 1))) rest) =
        (List.mapIdx (fun k (_ : String) => net ((i + 1) + k)) rest) := by
      congr 1
      funext k x
      congr 1
      omega
    cases hn : net (i + 0) with
    | err =>
      rw [Nat.add_zero] at hn
      simp only [mccn_loop, hn]
      rw [show (fun k => (fun j (_ : String) => net (i + j)) (k + 1)) =
        (fun k (_ : String) => net (i + (k + 1))) from rfl, hfun]
      simpa [debitsOf, List.filterMap_append, hn] using ih (i + 1)
    | other =>
      rw [Nat.add_zero] at hn
      simp only [mccn_loop, hn]
      rw [show (fun k => (fun j (_ : String) => net (i + j)) (k + 1)) =
        (fun k (_ : String) => net (i + (k + 1))) from rfl, hfun]
      simpa [debitsOf, List.filterMap_append, hn] using ih (i + 1)
    | list es =>
      rw [Nat.add_zero] at hn
      cases es with
      | nil =>
        simp only [mccn_loop, hn]
        rw [show (fun k => (fun j (_ : String) => net (i + j)) (k + 1)) =
          (fun k (_ : String) => net (i + (k + 1))) from rfl, hfun]
        simpa [debitsOf, List.filterMap_append, hn] using ih (i + 1)
      | cons r rs =>
        simp only [mccn_loop, hn]
        rw [show (fun k => (fun j (_ : String) => net (i + j)) (k + 1)) =
          (fun k (_ : String) => net (i + (k + 1))) from rfl, hfun]
        simpa [debitsOf, List.filterMap_append, hn] using ih (i + 1)

/-! ## Lemmas: stop-then-settle-then-edit discipline -/

theorem netCallsOf_append (a b : List Effect) :
    netCallsOf (a ++ b) = netCallsOf a ++ netCallsOf b := by
  simp [netCallsOf, List.filterMap_append]

theorem netCallsOf_binLookups (bs : List String) :
    netCallsOf (bs.map Effect.binLookup) = [] := by
  induction bs with
  | nil => rfl
  | cons b t ih =>
    rw [List.map_cons]
    rw [show netCallsOf (Effect.binLookup b :: t.map Effect.binLookup) =
      netCallsOf (t.map Effect.binLookup) from rfl]
    exact ih

theorem eas_nil (b : Bool) : editsAfterSettle [] b = true := rfl

theorem eas_stop_sleep (n : Nat) (l : List Effect) (b : Bool) :
    editsAfterSettle (Effect.stopSignal :: Effect.sleep n :: l) b =
      editsAfterSettle l true := rfl

theorem eas_edit (s : String) (l : List Effect) (b : Bool) :
    editsAfterSettle (Effect.editMsg s :: l) b = (b && editsAfterSettle l b) := rfl

theorem eas_delete (l : List Effect) (b : Bool) :
    editsAfterSettle (Effect.delete :: l) b = editsAfterSettle l b := rfl

theorem eas_answer (s : String) (l : List Effect) (b : Bool) :
    editsAfterSettle (Effect.answer s :: l) b = editsAfterSettle l b := rfl

theorem eas_sleep (n : Nat) (l : List Effect) (b : Bool) :
    editsAfterSettle (Effect.sleep n :: l) b = editsAfterSettle l b := rfl

theorem eas_animStart (l : List Effect) (b : Bool) :
    editsAfterSettle (Effect.animStart :: l) b = editsAfterSettle l b := rfl

theorem eas_netCall (s : String) (l : List Effect) (b : Bool) :
    editsAfterSettle (Effect.netCall s :: l) b = editsAfterSettle l b := rfl

theorem eas_binLookup (s : String) (l : List Effect) (b : Bool) :
    editsAfterSettle (Effect.binLookup s :: l) b = editsAfterSettle l b := rfl

theorem eas_channelSend (s : String) (l : List Effect) (b : Bool) :
    editsAfterSettle (Effect.channelSend s :: l) b = editsAfterSettle l b := rfl

theorem eas_debit (a : Int) (l : List Effect) (b : Bool) :
    editsAfterSettle (Effect.debit a :: l) b = editsAfterSettle l b := rfl

theorem eas_acquire (l : List Effect) (b : Bool) :
    editsAfterSettle (Effect.acquire :: l) b = editsAfterSettle l b := rfl

theorem eas_release (l : List Effect) (b : Bool) :
    editsAfterSettle (Effect.release :: l) b = editsAfterSettle l b := rfl

theorem editsAfterSettle_true_aux : ∀ (n : Nat) (l : List Effect), l.length ≤ n →
    editsAfterSettle l true = true := by
  intro n
  induction n with
  | zero =>
    intro l hl
    cases l with
    | nil => rfl
    | cons e t => simp at hl
  | succ n ih =>
    intro l hl
    cases l with
    | nil => rfl
    | cons e t =>
      have htl : t.length ≤ n := by
        simp only [List.length_cons] at hl
        omega
      cases e with
      | stopSignal =>
        cases t with
        | nil => rfl
        | cons e2 t2 =>
          cases e2 with
          | sleep m =>
            rw [eas_stop_sleep]
            exact ih t2 (by simp only [List.length_cons] at htl; omega)
          | delete => exact ih (Effect.delete :: t2) htl
          | answer s => exact ih (Effect.answer s :: t2) htl
          | editMsg s => exact ih (Effect.editMsg s :: t2) htl
          | stopSignal => exact ih (Effect.stopSignal :: t2) htl
          | animStart => exact ih (Effect.animStart :: t2) htl
          | netCall s => exact ih (Effect.netCall s :: t2) htl
          | binLookup s => exact ih (Effect.binLookup s :: t2) htl
          | channelSend s => exact ih (Effect.channelSend s :: t2) htl
          | debit a => exact ih (Effect.debit a :: t2) htl
          | acquire => exact ih (Effect.acquire :: t2) htl
          | release => exact ih (Effect.release :: t2) htl
      | editMsg s =>
        rw [eas_edit, Bool.true_and]
        exact ih t htl
      | delete =>
        rw [eas_delete]
        exact ih t htl
      | answer s =>
        rw [eas_answer]
        exact ih t htl
      | sleep m =>
        rw [eas_sleep]
        exact ih t htl
      | animStart =>
        rw [eas_animStart]
        exact ih t htl
      | netCall s =>
        rw [eas_netCall]
        exact ih t htl
      | binLookup s =>
        rw [eas_binLookup]
        exact ih t htl
      | channelSend s =>
        rw [eas_channelSend]
        exact ih t htl
      | debit a =>
        rw [eas_debit]
        exact ih t htl
      | acquire =>
        rw [eas_acquire]
        exact ih t htl
      | release =>
        rw [eas_release]
        exact ih t htl

theorem editsAfterSettle_true (l : List Effect) : editsAfterSettle l true = true :=
  editsAfterSettle_true_aux l.length l (Nat.le_refl _)

theorem editsAfterSettle_append_neutral {l : List Effect}
    (h : ∀ e ∈ l, (∀ s, e ≠ Effect.editMsg s) ∧ e ≠ Effect.stopSignal) :
    ∀ (rest : List Effect) (b : Bool),
      editsAfterSettle (l ++ rest) b = editsAfterSettle rest b := by
  induction l with
  | nil =>
    intro rest b
    rfl
  | cons e t ih =>
    intro rest b
    have he := h e (List.mem_cons_self e t)
    have htail := ih (fun x hx => h x (List.mem_cons_of_mem _ hx))
    cases e with
    | editMsg s => exact absurd rfl (he.1 s)
    | stopSignal => exact absurd rfl he.2
    | delete => rw [List.cons_append, eas_delete]; exact htail rest b
    | answer s => rw [List.cons_append, eas_answer]; exact htail rest b
    | sleep n => rw [List.cons_append, eas_sleep]; exact htail rest b
    | animStart => rw [List.cons_append, eas_animStart]; exact htail rest b
    | netCall s => rw [List.cons_append, eas_netCall]; exact htail rest b
    | binLookup s => rw [List.cons_append, eas_binLookup]; exact htail rest b
    | channelSend s => rw [List.cons_append, eas_channelSend]; exact htail rest b
    | debit a => rw [List.cons_append, eas_debit]; exact htail rest b
    | acquire => rw [List.cons_append, eas_acquire]; exact htail rest b
    | release => rw [List.cons_append, eas_release]; exact htail rest b

theorem mccn_loop_effects_shape (isAdmin : Bool) (net : Nat → NetResult)
    (cards : List String) : ∀ i : Nat, ∀ e ∈ (mccn_loop isAdmin net cards i).1,
    (∀ s, e ≠ Effect.editMsg s) ∧ e ≠ Effect.stopSignal := by
  induction cards with
  | nil =>
    intro i e he
    simp [mccn_loop] at he
  | cons c rest ih =>
    intro i e he
    cases hn : net i with
    | err =>
      simp only [mccn_loop, hn, List.cons_append, List.nil_append] at he
      rcases List.mem_cons.mp he with h1 | h2
      · subst h1
        exact ⟨fun s => by simp, by simp⟩
      · exact ih (i + 1) e h2
    | other =>
      simp only [mccn_loop, hn, List.cons_append, List.nil_append] at he
      rcases List.mem_cons.mp he with h1 | h2
      · subst h1
        exact ⟨fun s => by simp, by simp⟩
      · exact ih (i + 1) e h2
    | list es =>
      cases es with
      | nil =>
        simp only [mccn_loop, hn, List.cons_append, List.nil_append] at he
        rcases List.mem_cons.mp he with h1 | h2
        · subst h1
          exact ⟨fun s => by simp, by simp⟩
        · exact ih (i + 1) e h2
      | cons r rs =>
        simp only [mccn_loop, hn, List.cons_append, List.nil_append,
          List.append_assoc] at he
        rcases List.mem_cons.mp he with h1 | h2
        · subst h1
          exact ⟨fun s => by simp, by simp⟩
        · rcases List.mem_append.mp h2 with h3 | h4
          · have : e = Effect.debit 1 := by
              cases hadm : isAdmin with
              | true =>
                rw [hadm] at h3
                simp at h3
              | false =>
                rw [hadm] at h3
                simpa using h3
            subst this
            exact ⟨fun s => by simp, by simp⟩
          · exact ih (i + 1) e h4

theorem do_ccn_editsAfterSettle (ctx : Ctx) (pm : ProcMap) :
    editsAfterSettle (do_ccn ctx pm).trace false = true := by
  cases hex : ctx.existing with
  | none => simp [do_ccn, hex, eas_delete, eas_answer, eas_nil]
  | some user =>
    by_cases hmaint : (ctx.maintenance && !ctx.in_admin_ids) = true
    · simp [do_ccn, hex, hmaint, eas_answer, eas_nil]
    · have hmaint' : (ctx.maintenance && !ctx.in_admin_ids) = false := by
        simpa using hmaint
      by_cases hfsm : ctx.fsm = some GateState.in_gate_ccn
      · cases hre : cc_re_match ctx.text with
        | none => simp [do_ccn, hex, hmaint', hfsm, hre, eas_delete, eas_nil]
        | some g =>
          by_cases hcred : (!user.is_admin && decide (user.credits < 1)) = true
          · simp [do_ccn, hex, hmaint', hfsm, hre, hcred, eas_answer, eas_nil]
          · have hcred' : (!user.is_admin && decide (user.credits < 1)) = false := by
              simpa using hcred
            by_cases hbusy : pm ctx.uid = true
            · simp [do_ccn, hex, hmaint', hfsm, hre, hcred', hbusy, eas_delete, eas_nil]
            · have hbusy' : pm ctx.uid = false := by simpa using hbusy
              cases hp : parse_cc g with
              | error e =>
                cases e
                exact absurd hp (cc_capture_no_error hre)
              | ok p =>
                cases p with
                | none =>
                  simp [do_ccn, hex, hmaint', hfsm, hre, hcred', hbusy', hp,
                    eas_acquire, eas_release, eas_delete, eas_nil]
                | some full =>
                  cases hnet : ctx.net 0 with
                  | err =>
                    simp [do_ccn, hex, hmaint', hfsm, hre, hcred', hbusy', hp, hnet,
                      ccn_pre, ccn_fin, List.cons_append, List.append_assoc,
                      eas_acquire, eas_binLookup, eas_answer, eas_animStart,
                      eas_netCall, eas_stop_sleep, eas_edit, eas_release, eas_nil,
                      editsAfterSettle_true]
                  | other =>
                    simp [do_ccn, hex, hmaint', hfsm, hre, hcred', hbusy', hp, hnet,
                      ccn_pre, ccn_fin, List.cons_append, List.append_assoc,
                      eas_acquire, eas_binLookup, eas_answer, eas_animStart,
                      eas_netCall, eas_stop_sleep, eas_edit, eas_release, eas_nil,
                      editsAfterSettle_true]
                  | list es =>
                    cases es with
                    | nil =>
                      simp [do_ccn, hex, hmaint', hfsm, hre, hcred', hbusy', hp, hnet,
                        ccn_pre, ccn_fin, List.cons_append, List.append_assoc,
                        eas_acquire, eas_binLookup, eas_answer, eas_animStart,
                        eas_netCall, eas_stop_sleep, eas_edit, eas_release, eas_nil,
                        editsAfterSettle_true]
                    | cons r rs =>
                      simp [do_ccn, hex, hmaint', hfsm, hre, hcred', hbusy', hp, hnet,
                        ccn_pre, ccn_fin, List.cons_append, List.append_assoc,
                        eas_acquire, eas_binLookup, eas_answer, eas_animStart,
                        eas_netCall, eas_stop_sleep, eas_edit, eas_release, eas_nil,
                        editsAfterSettle_true]
      · simp [do_ccn, hex, hmaint', hfsm, eas_delete, eas_answer, eas_nil]

theorem do_mccn_editsAfterSettle (ctx : Ctx) (pm : ProcMap) :
    editsAfterSettle (do_mccn ctx pm).trace false = true := by
  cases hex : ctx.existing with
  | none => simp [do_mccn, hex, eas_delete, eas_answer, eas_nil]
  | some user =>
    by_cases hmaint : (ctx.maintenance && !ctx.in_admin_ids) = true
    · simp [do_mccn, hex, hmaint, eas_answer, eas_nil]
    · have hmaint' : (ctx.maintenance && !ctx.in_admin_ids) = false := by
        simpa using hmaint
      by_cases hfsm : ctx.fsm = some GateState.in_gate_mccn
      · cases hre : mass_re_match ctx.text with
        | none => simp [do_mccn, hex, hmaint', hfsm, hre, eas_delete, eas_nil]
        | some g =>
          cases hcol : mccn_collect (pyWords (pyReplaceNl g)) [] with
          | error e => simp [do_mccn, hex, hmaint', hfsm, hre, hcol, eas_nil]
          | ok cards =>
            by_cases h2 : cards.length < 2
            · simp [do_mccn, hex, hmaint', hfsm, hre, hcol, h2, eas_delete, eas_nil]
            · by_cases hcan : min (cards.length : Int)
                  (if user.is_admin then 9999 else user.credits) = 0
              · simp [do_mccn, hex, hmaint', hfsm, hre, hcol, h2, hcan,
                  eas_answer, eas_nil]
              · rw [do_mccn_main ctx pm user g cards _ hex hmaint' hfsm hre hcol h2
                  hcan rfl]
                have hA : ∀ e ∈ (uniqBins (pySliceTo
                    (min (cards.length : Int)
                      (if user.is_admin then 9999 else user.credits)) cards)).map
                    Effect.binLookup,
                    (∀ s, e ≠ Effect.editMsg s) ∧ e ≠ Effect.stopSignal := by
                  intro e he
                  rcases List.mem_map.mp he with ⟨b, _, rfl⟩
                  exact ⟨fun s => by simp, by simp⟩
                have hL := mccn_loop_effects_shape user.is_admin ctx.net
                  (pySliceTo (min (cards.length : Int)
                    (if user.is_admin then 9999 else user.credits)) cards) 0
                show editsAfterSettle _ false = true
                simp only [List.append_assoc]
                rw [editsAfterSettle_append_neutral hA]
                simp only [List.cons_append, List.nil_append, eas_answer, eas_animStart]
                rw [editsAfterSettle_append_neutral hL]
                simp [List.cons_append, eas_stop_sleep, eas_edit, editsAfterSettle_true]
      · simp [do_mccn, hex, hmaint', hfsm, eas_delete, eas_answer, eas_nil]

/-! ## Lemmas: animator and the stop/settle interleaving -/

theorem anim_tick_ok (b : Bool) : anim_tick b = .ok () := by
  cases b <;> rfl

theorem animate_processing_indep (base : String) (editOk : Nat → Bool) :
    ∀ fuel i : Nat,
      animate_processing base editOk fuel i =
        animate_processing base (fun _ => true) fuel i := by
  intro fuel
  induction fuel with
  | zero => intro i; rfl
  | succ n ih =>
    intro i
    show (anim_tick (editOk i) >>= fun _ =>
        animate_processing base editOk n (i + 1) >>= fun rest =>
        pure (("" ++ base ++ "\n🔄 Processing" ++ dotsAt i) :: rest)) = _
    rw [anim_tick_ok, ih (i + 1)]
    rfl

theorem animate_processing_ok (base : String) (editOk : Nat → Bool) :
    ∀ fuel i : Nat, ∃ ticks, animate_processing base editOk fuel i = .ok ticks := by
  intro fuel
  induction fuel with
  | zero => intro i; exact ⟨[], rfl⟩
  | succ n ih =>
    intro i
    rcases ih (i + 1) with ⟨ticks, hticks⟩
    refine ⟨("" ++ base ++ "\n🔄 Processing" ++ dotsAt i) :: ticks, ?_⟩
    show (anim_tick (editOk i) >>= fun _ =>
        animate_processing base editOk n (i + 1) >>= fun rest =>
        pure (("" ++ base ++ "\n🔄 Processing" ++ dotsAt i) :: rest)) = _
    rw [anim_tick_ok, hticks]
    rfl

theorem arun_no_tick_of_stop : ∀ (sched : List ATask) (st : ASt),
    st.stop = true → AEvent.tick ∉ arun st sched := by
  intro sched
  induction sched with
  | nil =>
    intro st hstop
    simp [arun]
  | cons t ts ih =>
    intro st hstop
    cases t with
    | anim =>
      simp only [arun, astep, hstop, if_true]
      exact ih st hstop
    | fin =>
      cases hpc : st.finPC with
      | zero =>
        simp only [arun, astep, hpc]
        intro hmem
        rcases List.mem_cons.mp hmem with h1 | h2
        · exact AEvent.noConfusion h1
        · exact ih _ (by simp) h2
      | succ n =>
        cases n with
        | zero =>
          simp only [arun, astep, hpc]
          intro hmem
          rcases List.mem_cons.mp hmem with h1 | h2
          · exact AEvent.noConfusion h1
          · exact ih _ (by simpa using hstop) h2
        | succ m =>
          cases m with
          | zero =>
            simp only [arun, astep, hpc]
            intro hmem
            rcases List.mem_cons.mp hmem with h1 | h2
            · exact AEvent.noConfusion h1
            · exact ih _ (by simpa using hstop) h2
          | succ k =>
            simp only [arun, astep, hpc]
            exact ih st hstop

theorem noTickAfterFinal_of_no_tick : ∀ (l : List AEvent), AEvent.tick ∉ l →
    ∀ b, noTickAfterFinal l b = true := by
  intro l
  induction l with
  | nil =>
    intro _ b
    rfl
  | cons e t ih =>
    intro hmem b
    have ht : AEvent.tick ∉ t := fun hx => hmem (List.mem_cons_of_mem _ hx)
    cases e with
    | tick => exact absurd (List.mem_cons_self _ _) hmem
    | stopSet => exact ih ht b
    | settle => exact ih ht b
    | finalEdit => exact ih ht true

theorem arun_noTickAfterFinal : ∀ (sched : List ATask) (st : ASt),
    (st.finPC ≠ 0 → st.stop = true) →
    noTickAfterFinal (arun st sched) false = true := by
  intro sched
  induction sched with
  | nil =>
    intro st _
    rfl
  | cons t ts ih =>
    intro st hinv
    cases t with
    | anim =>
      by_cases hs : st.stop = true
      · simp only [arun, astep, hs, if_true]
        exact ih st hinv
      · have hs' : st.stop = false := by simpa using hs
        simp only [arun, astep, hs', Bool.false_eq_true, if_false]
        show (!false && noTickAfterFinal (arun st ts) false) = true
        rw [Bool.not_false, Bool.true_and]
        exact ih st hinv
    | fin =>
      cases hpc : st.finPC with
      | zero =>
        simp only [arun, astep, hpc]
        show noTickAfterFinal (arun { st with stop := true, finPC := 1 } ts) false = true
        exact ih _ (fun _ => rfl)
      | succ n =>
        cases n with
        | zero =>
          simp only [arun, astep, hpc]
          show noTickAfterFinal (arun { st with finPC := 2 } ts) false = true
          exact ih _ (fun _ => hinv (by rw [hpc]; simp))
        | succ m =>
          cases m with
          | zero =>
            have hstop : st.stop = true := hinv (by rw [hpc]; simp)
            simp only [arun, astep, hpc]
            show noTickAfterFinal (AEvent.finalEdit :: arun { st with finPC := 3 } ts)
              false = true
            show noTickAfterFinal (arun { st with finPC := 3 } ts) true = true
            exact noTickAfterFinal_of_no_tick _
              (arun_no_tick_of_stop ts _ (by simpa using hstop)) true
          | succ k =>
            simp only [arun, astep, hpc]
            exact ih st hinv

/-! ## Claim theorems

One theorem per claim of the frozen claim list, each preceded by its
statement in words.  Amended claims carry their counterexample theorem
next to them. -/

/-- Claim C1: the ledger debit is a single conditional update — it
decrements the stored balance by the amount exactly when the current
balance is at least the amount (first conjunct), leaves the balance
unchanged when it is smaller (second conjunct), touches no other user's
row (third conjunct), and therefore no sequence of debits can drive a
non-negative ledger negative (fourth conjunct).  The SQL statement
`UPDATE ... SET credits = COALESCE(credits,0) - ? WHERE tg_id = ? AND
credits >= ?` is embedded as the single atomic function
`deduct_credits`. -/
theorem claim_C1 (db : Ledger) (tg amount : Int) :
    (∀ c : Int, db tg = some (some c) → amount ≤ c →
      deduct_credits db tg amount tg = some (some (c - amount))) ∧
    (∀ c : Int, db tg = some (some c) → c < amount →
      deduct_credits db tg amount tg = some (some c)) ∧
    (∀ u : Int, u ≠ tg → deduct_credits db tg amount u = db u) ∧
    (ledgerNonneg db → ∀ ops : List (Int × Int),
      ledgerNonneg (ops.foldl (fun d p => deduct_credits d p.1 p.2) db)) := by
  refine ⟨?_, ?_, ?_, ?_⟩
  · intro c hdb hle
    simp only [deduct_credits, hdb]
    rw [if_pos (by simp [sqlGe, hle])]
    simp [coalesce0]
  · intro c hdb hlt
    simp only [deduct_credits, hdb]
    rw [if_neg (by simp [sqlGe]; omega)]
  · intro u hne
    cases hdu : db u with
    | none => simp only [deduct_credits, hdu]
    | some creds =>
      simp only [deduct_credits, hdu]
      rw [if_neg (by simp [hne])]
  · intro h ops
    exact foldl_deduct_nonneg h ops

/-- Witness for C1 at a concrete ledger: user 1 holds 5 credits; a debit
of 3 leaves 2; a debit of 9 from a 2-credit balance leaves 2; another
user's row is untouched; and a burst of debits keeps the ledger
non-negative. -/
theorem claim_C1_witness :
    deduct_credits (fun u => if u = 1 then some (some 5) else none) 1 3 1 =
      some (some 2) ∧
    deduct_credits (fun u => if u = 1 then some (some 2) else none) 1 9 1 =
      some (some 2) ∧
    deduct_credits (fun u => if u = 1 then some (some 5) else none) 1 3 7 = none ∧
    ledgerNonneg ([((1 : Int), (1 : Int)), (1, 1), (1, 99)].foldl
      (fun d p => deduct_credits d p.1 p.2) (fun _ => some (some 5))) := by
  refine ⟨?_, ?_, ?_, ?_⟩
  · have h := (claim_C1 (fun u => if u = 1 then some (some 5) else none) 1 3).1 5
      (by decide) (by decide)
    simpa using h
  · have h := (claim_C1 (fun u => if u = 1 then some (some 2) else none) 1 9).2.1 2
      (by decide) (by decide)
    simpa using h
  · have h := (claim_C1 (fun u => if u = 1 then some (some 5) else none) 1 3).2.2.1 7
      (by decide)
    simpa using h
  · refine (claim_C1 (fun _ => some (some 5)) 1 1).2.2.2 ?_ _
    intro u c hc
    have : c = 5 := by
      have := Option.some.inj (Option.some.inj hc)
      omega
    omega

/-- Claim C3: the classifier applies its rules in order, first match
winning: a challenge marker in the message yields the challenge outcome
even for an approved status; otherwise an accepted status yields
Approved; otherwise the security-code-incorrect message yields Approved;
otherwise Declined. -/
theorem claim_C3 (status message : String) :
    (challenge_markers.any (fun k => pyIn k (pyUpper message)) = true →
      classify_head status message = challenge_text) ∧
    (challenge_markers.any (fun k => pyIn k (pyUpper message)) = false →
      (pyLower status = "succeeded" ∨ pyLower status = "order_id" ∨
        pyLower status = "requires_action") →
      classify_head status message = approved_text) ∧
    (challenge_markers.any (fun k => pyIn k (pyUpper message)) = false →
      ¬(pyLower status = "succeeded" ∨ pyLower status = "order_id" ∨
        pyLower status = "requires_action") →
      pyIn "SECURITY CODE IS INCORRECT" (pyUpper message) = true →
      classify_head status message = approved_text) ∧
    (challenge_markers.any (fun k => pyIn k (pyUpper message)) = false →
      ¬(pyLower status = "succeeded" ∨ pyLower status = "order_id" ∨
        pyLower status = "requires_action") →
      pyIn "SECURITY CODE IS INCORRECT" (pyUpper message) = false →
      classify_head status message = declined_text) := by
  have hs : ∀ (h2 : ¬(pyLower status = "succeeded" ∨ pyLower status = "order_id" ∨
      pyLower status = "requires_action")),
      (pyLower status = "succeeded" || pyLower status = "order_id" ||
        pyLower status = "requires_action") = false := by
    intro h2
    simp only [Bool.or_eq_false_iff, decide_eq_false_iff_not]
    exact ⟨⟨fun h => h2 (Or.inl h), fun h => h2 (Or.inr (Or.inl h))⟩,
      fun h => h2 (Or.inr (Or.inr h))⟩
  refine ⟨classify_head_of_marker, ?_, ?_, ?_⟩
  · intro hm hsucc
    simp only [classify_head]
    rw [hm]
    rw [if_neg (by simp)]
    rw [if_pos (by rcases hsucc with h | h | h <;> simp [h])]
  · intro hm hsucc hsec
    simp only [classify_head]
    rw [hm, hs hsucc]
    rw [if_neg (by simp), if_neg (by simp), if_pos hsec]
  · intro hm hsucc hsec
    simp only [classify_head]
    rw [hm, hs hsucc, hsec]
    rw [if_neg (by simp), if_neg (by simp), if_neg (by simp)]

/-- Witness for C3 at the specification's own examples: a succeeded
status classifies Approved; a 3DS message pre-empts a succeeded status;
the security-code-incorrect message on a failed status classifies
Approved; anything else declines. -/
theorem claim_C3_witness :
    classify_head "succeeded" "Payment ok" = approved_text ∧
    classify_head "succeeded" "3DS required" = challenge_text ∧
    classify_head "failed" "Your cards security code is incorrect." = approved_text ∧
    classify_head "failed" "Card declined" = declined_text := by
  refine ⟨?_, ?_, ?_, ?_⟩
  · exact (claim_C3 "succeeded" "Payment ok").2.1 (by decide) (by decide)
  · exact (claim_C3 "succeeded" "3DS required").1 (by decide)
  · exact (claim_C3 "failed" "Your cards security code is incorrect.").2.2.1
      (by decide) (by decide) (by decide)
  · exact (claim_C3 "failed" "Card declined").2.2.2 (by decide) (by decide) (by decide)

/-- Claim C9: a message whose upper-cased text contains `"3D"` anywhere
classifies as ChallengeRequired whatever the status, and the challenge
outcome is produced exactly when one of the six markers `3DS`, `3D`,
`OTP`, `ONE TIME PASSWORD`, `REDIRECT`, `3-D` occurs in the upper-cased
message. -/
theorem claim_C9 (status message : String) :
    (pyIn "3D" (pyUpper message) = true →
      classify_head status message = challenge_text) ∧
    (classify_head status message = challenge_text ↔
      challenge_markers.any (fun k => pyIn k (pyUpper message)) = true) := by
  constructor
  · intro h
    apply classify_head_of_marker
    apply List.any_eq_true.mpr
    exact ⟨"3D", by simp [challenge_markers], h⟩
  · exact classify_head_challenge_iff status message

/-- Witness for C9: `"3D"` inside a longer token (`"A3DX"`) forces the
challenge outcome even with status `succeeded`; lower-case `"otp"`
matches case-insensitively; and a marker-free message does not classify
as a challenge. -/
theorem claim_C9_witness :
    classify_head "succeeded" "xA3DXy" = challenge_text ∧
    classify_head "failed" "send otp now" = challenge_text ∧
    ¬ classify_head "succeeded" "fine" = challenge_text := by
  refine ⟨?_, ?_, ?_⟩
  · exact (claim_C9 "succeeded" "xA3DXy").1 (by decide)
  · exact (claim_C9 "failed" "send otp now").2.mpr (by decide)
  · intro h
    have := (claim_C9 "succeeded" "fine").2.mp h
    exact absurd this (by decide)

/-- Claim C4 (amended): the parser accepts exactly the inputs whose four
trimmed pipe-separated fields are all digits with a 12–19 digit number
passing the mod-10 checksum and a month in `[1, 12]`; every other input
is rejected by returning `None` — except that a digit-class character
that is not a decimal digit (such as `'²'`) in the number or month field
makes `int()` raise instead of returning invalid.  Stated for inputs
free of such characters, together with the no-exception guarantee. -/
theorem claim_C4 (cc : String) (hd : ∀ ch ∈ cc.data, nonDecimalDigit ch = false) :
    parse_cc cc ≠ .error () ∧
      ((∃ r, parse_cc cc = .ok (some r)) ↔ claimAccepts cc = true) :=
  ⟨parse_cc_no_error hd, parse_cc_accepts_iff hd⟩

/-- Counterexample to C4 as frozen: the claim says invalid input is
always rejected by an invalid result and never an exception, but the
month field `'²'` passes `str.isdigit` and then makes `int()` raise. -/
theorem claim_C4_counterexample :
    parse_cc "4111111111111111|²|2026|123" = .error () := by decide

/-- Witness for C4 at the specification's vectors: `4111111111111111`
passes the checksum and is accepted, `4111111111111112` fails it and is
rejected. -/
theorem claim_C4_witness :
    (parse_cc "4111111111111111|05|2026|123" ≠ .error () ∧
      ((∃ r, parse_cc "4111111111111111|05|2026|123" = .ok (some r)) ↔
        claimAccepts "4111111111111111|05|2026|123" = true)) ∧
    (parse_cc "4111111111111112|05|2026|123" ≠ .error () ∧
      ((∃ r, parse_cc "4111111111111112|05|2026|123" = .ok (some r)) ↔
        claimAccepts "4111111111111112|05|2026|123" = true)) :=
  ⟨claim_C4 _ (by decide), claim_C4 _ (by decide)⟩

/-- Claim C5 (amended): for every accepted input the canonical output is
the pipe-join of the four trimmed fields with every field preserved
verbatim — including the month — except the expiry year, which is
expanded with `"20"` exactly when it has two digits (in which case the
output year has four digits); a year of any other length is preserved
as-is, so the output year need not have four digits. -/
theorem claim_C5 (cc r : String) (h : parse_cc cc = .ok (some r)) :
    ∃ f1 f2 f3 f4, claimFields cc = [f1, f2, f3, f4] ∧
      r = f1 ++ "|" ++ f2 ++ "|" ++
        (if f3.data.length = 2 then "20" ++ f3 else f3) ++ "|" ++ f4 ∧
      (f3.data.length = 2 → ("20" ++ f3).data.length = 4) := by
  rcases parse_cc_some_shape h with ⟨c0, m0, y0, cvv0, _, hcf, hr⟩
  refine ⟨pyStrip c0, pyStrip m0, pyStrip y0, pyStrip cvv0, hcf, hr, ?_⟩
  intro h2
  have : ("20" ++ pyStrip y0).data = "20".data ++ (pyStrip y0).data :=
    String.data_append ..
  rw [this, List.length_append, h2]
  rfl

/-- Counterexample to C5 as frozen: parsing
`"4111111111111111|05|2026|123"` yields the month verbatim (`"05"`), not
the claimed `"...|5|..."`; and a one-digit year is preserved, so the
output year does not always have four digits. -/
theorem claim_C5_counterexample :
    parse_cc "4111111111111111|05|2026|123" =
      .ok (some "4111111111111111|05|2026|123") ∧
    (some "4111111111111111|05|2026|123" : Option String) ≠
      some "4111111111111111|5|2026|123" ∧
    parse_cc "4111111111111111|05|6|123" = .ok (some "4111111111111111|05|6|123") := by
  refine ⟨by decide, by decide, by decide⟩

/-- Witness for C5: the two-digit year `26` is expanded to `2026`. -/
theorem claim_C5_witness :
    ∃ f1 f2 f3 f4,
      claimFields "4111111111111111|05|26|123" = [f1, f2, f3, f4] ∧
      "4111111111111111|05|2026|123" = f1 ++ "|" ++ f2 ++ "|" ++
        (if f3.data.length = 2 then "20" ++ f3 else f3) ++ "|" ++ f4 ∧
      (f3.data.length = 2 → ("20" ++ f3).data.length = 4) :=
  claim_C5 "4111111111111111|05|26|123" "4111111111111111|05|2026|123" (by decide)

/-- Claim C2 (amended): the single-card gate enforces one verification
in flight per user — a second `/ccn` attempt while the slot is held is
rejected with a silent delete (first conjunct); a handler admitted on a
free slot always leaves the slot free again on completion, whichever
branch it takes (second conjunct); and on the happy path the slot is
taken before the network call and released after it (fourth conjunct).
The batch gate, however, does not share this admission slot: `do_mccn`
never reads or writes the processing map (third conjunct). -/
theorem claim_C2 :
    (∀ (ctx : Ctx) (pm : ProcMap) (u : UserRec) (g : String),
      ctx.existing = some u →
      (ctx.maintenance && !ctx.in_admin_ids) = false →
      ctx.fsm = some GateState.in_gate_ccn →
      cc_re_match ctx.text = some g →
      (!u.is_admin && decide (u.credits < 1)) = false →
      pm ctx.uid = true →
      do_ccn ctx pm = ⟨pm, [Effect.delete], false⟩) ∧
    (∀ (ctx : Ctx) (pm : ProcMap), pm ctx.uid = false →
      (do_ccn ctx pm).pm ctx.uid = false) ∧
    (∀ (ctx : Ctx) (pm pm2 : ProcMap),
      (do_mccn ctx pm).pm = pm ∧
      (do_mccn ctx pm).trace = (do_mccn ctx pm2).trace ∧
      (do_mccn ctx pm).raised = (do_mccn ctx pm2).raised) ∧
    (∀ (ctx : Ctx) (pm : ProcMap) (u : UserRec) (g full : String)
      (r : RespEntry) (rs : List RespEntry),
      ctx.existing = some u →
      (ctx.maintenance && !ctx.in_admin_ids) = false →
      ctx.fsm = some GateState.in_gate_ccn →
      cc_re_match ctx.text = some g →
      (!u.is_admin && decide (u.credits < 1)) = false →
      pm ctx.uid = false →
      parse_cc g = .ok (some full) →
      ctx.net 0 = NetResult.list (r :: rs) →
      Effect.acquire ∈ (do_ccn ctx pm).trace ∧
      Effect.release ∈ (do_ccn ctx pm).trace ∧
      (do_ccn ctx pm).pm ctx.uid = false) := by
  refine ⟨ccn_busy_reject, ccn_slot_released, mccn_ignores_slot, ?_⟩
  intro ctx pm u g full r rs hex hmaint hfsm hre hcred hfree hparse hnet
  have h := do_ccn_ok_trace ctx pm u g full r rs hex hmaint hfsm hre hcred hfree
    hparse hnet
  refine ⟨?_, ?_, ?_⟩
  · rw [h]
    simp [ccn_pre]
  · rw [h]
    simp [ccn_fin]
  · rw [h]
    simp

/-- Counterexample to C2 as frozen: the claim says the batch gate shares
the one admission slot, but `do_mccn` ignores it — submitted while user
1 has a single-card check outstanding, the batch still performs both
network calls, never acquires the slot, and leaves the map exactly as it
was. -/
theorem claim_C2_counterexample :
    (do_mccn
      ⟨1, "A", "A", false, some ⟨5, false⟩, false, some GateState.in_gate_mccn,
       "/mccn 4111111111111111|05|26|123 5555555555554444|06|27|456",
       fun _ => [], fun _ => NetResult.err, true, false⟩
      (fun v => decide (v = 1))).pm 1 = true ∧
    (netCallsOf (do_mccn
      ⟨1, "A", "A", false, some ⟨5, false⟩, false, some GateState.in_gate_mccn,
       "/mccn 4111111111111111|05|26|123 5555555555554444|06|27|456",
       fun _ => [], fun _ => NetResult.err, true, false⟩
      (fun v => decide (v = 1))).trace).length = 2 ∧
    Effect.acquire ∉ (do_mccn
      ⟨1, "A", "A", false, some ⟨5, false⟩, false, some GateState.in_gate_mccn,
       "/mccn 4111111111111111|05|26|123 5555555555554444|06|27|456",
       fun _ => [], fun _ => NetResult.err, true, false⟩
      (fun v => decide (v = 1))).trace := by
  refine ⟨?_, ?_, ?_⟩ <;> decide

/-- Witness for C2: with user 1's slot held, a `/ccn` attempt is
rejected by a silent delete; with the slot free, the happy path both
acquires and releases the slot and leaves it free at the end. -/
theorem claim_C2_witness :
    do_ccn
      ⟨1, "A", "A", false, some ⟨5, false⟩, false, some GateState.in_gate_ccn,
       "/ccn 4111111111111111|05|26|123", fun _ => [],
       fun _ => NetResult.list [⟨some "succeeded", some "ok"⟩], true, false⟩
      (fun v => decide (v = 1)) =
      ⟨(fun v => decide (v = 1)), [Effect.delete], false⟩ ∧
    (Effect.acquire ∈ (do_ccn
      ⟨1, "A", "A", false, some ⟨5, false⟩, false, some GateState.in_gate_ccn,
       "/ccn 4111111111111111|05|26|123", fun _ => [],
       fun _ => NetResult.list [⟨some "succeeded", some "ok"⟩], true, false⟩
      (fun _ => false)).trace ∧
     Effect.release ∈ (do_ccn
      ⟨1, "A", "A", false, some ⟨5, false⟩, false, some GateState.in_gate_ccn,
       "/ccn 4111111111111111|05|26|123", fun _ => [],
       fun _ => NetResult.list [⟨some "succeeded", some "ok"⟩], true, false⟩
      (fun _ => false)).trace ∧
     (do_ccn
      ⟨1, "A", "A", false, some ⟨5, false⟩, false, some GateState.in_gate_ccn,
       "/ccn 4111111111111111|05|26|123", fun _ => [],
       fun _ => NetResult.list [⟨some "succeeded", some "ok"⟩], true, false⟩
      (fun _ => false)).pm 1 = false) :=
  ⟨claim_C2.1 _ (fun v => decide (v = 1)) ⟨5, false⟩ "4111111111111111|05|26|123"
      rfl rfl rfl (by decide) (by decide) (by decide),
   claim_C2.2.2.2 _ (fun _ => false) ⟨5, false⟩ "4111111111111111|05|26|123"
      "4111111111111111|05|2026|123" ⟨some "succeeded", some "ok"⟩ [] rfl rfl rfl
      (by decide) (by decide) rfl (by decide) rfl⟩

/-- Claim C10: a registered non-admin user in the `/ccn` gate state with
balance below 1 whose message matches the command pattern is answered
with the insufficient-credit report, whatever the captured card text is
(malformed or checksum-failing included), since the credit check
precedes both the parse and the admission slot: the slot map is
untouched and the message is not silently deleted. -/
theorem claim_C10 (ctx : Ctx) (pm : ProcMap) (u : UserRec) (g : String)
    (hex : ctx.existing = some u)
    (hmaint : (ctx.maintenance && !ctx.in_admin_ids) = false)
    (hfsm : ctx.fsm = some GateState.in_gate_ccn)
    (hre : cc_re_match ctx.text = some g)
    (hadmin : u.is_admin = false)
    (hcred : u.credits < 1) :
    do_ccn ctx pm = ⟨pm, [Effect.answer insufficient_text], false⟩ ∧
    (do_ccn ctx pm).trace ≠ [Effect.delete] ∧
    Effect.acquire ∉ (do_ccn ctx pm).trace := by
  have h := ccn_insufficient ctx pm u g hex hmaint hfsm hre hadmin hcred
  refine ⟨h, ?_, ?_⟩
  · rw [h]
    simp
  · rw [h]
    simp

/-- Witness for C10: with zero credits, even a checksum-failing card
with an out-of-range month gets the insufficient-credit answer, not a
silent delete, and the slot is never taken. -/
theorem claim_C10_witness :
    do_ccn
      ⟨1, "A", "A", false, some ⟨0, false⟩, false, some GateState.in_gate_ccn,
       "/ccn 4111111111111112|13|26|1", fun _ => [], fun _ => NetResult.err,
       true, false⟩
      (fun _ => false) =
      ⟨(fun _ => false), [Effect.answer insufficient_text], false⟩ ∧
    (do_ccn
      ⟨1, "A", "A", false, some ⟨0, false⟩, false, some GateState.in_gate_ccn,
       "/ccn 4111111111111112|13|26|1", fun _ => [], fun _ => NetResult.err,
       true, false⟩
      (fun _ => false)).trace ≠ [Effect.delete] ∧
    Effect.acquire ∉ (do_ccn
      ⟨1, "A", "A", false, some ⟨0, false⟩, false, some GateState.in_gate_ccn,
       "/ccn 4111111111111112|13|26|1", fun _ => [], fun _ => NetResult.err,
       true, false⟩
      (fun _ => false)).trace :=
  claim_C10 _ (fun _ => false) ⟨0, false⟩ "4111111111111112|13|26|1" rfl rfl rfl
    (by decide) rfl (by decide)

/-- Claim C6 (amended): the batch orchestrator splits the submission on
whitespace (newlines normalised to spaces), keeps only the tokens the
parser accepts, and caps the kept list at 5 (`keptCards`); fewer than 2
kept tokens reject the whole submission silently (first conjunct); with
at least 2 kept, a non-admin with zero balance is told the credit is
insufficient instead of processing (second conjunct), and otherwise
exactly `min(kept, balance)` cards are fetched, in original order
(third conjunct).  Stated for submissions free of the digit-class
characters on which the parser raises (see C4). -/
theorem claim_C6 (ctx : Ctx) (pm : ProcMap) (u : UserRec) (g : String)
    (hex : ctx.existing = some u)
    (hmaint : (ctx.maintenance && !ctx.in_admin_ids) = false)
    (hfsm : ctx.fsm = some GateState.in_gate_mccn)
    (hre : mass_re_match ctx.text = some g)
    (hadmin : u.is_admin = false)
    (htok : ∀ s ∈ pyWords (pyReplaceNl g), parse_cc s ≠ .error ()) :
    ((keptCards g).length < 2 → do_mccn ctx pm = ⟨pm, [Effect.delete], false⟩) ∧
    (2 ≤ (keptCards g).length → u.credits = 0 →
      do_mccn ctx pm = ⟨pm, [Effect.answer insufficient_text], false⟩) ∧
    (2 ≤ (keptCards g).length → 0 < u.credits →
      netCallsOf (do_mccn ctx pm).trace =
        ((keptCards g).take (min (keptCards g).length u.credits.toNat)).map
          (fun c => BASE_CC_API ++ c)) := by
  have hcol : mccn_collect (pyWords (pyReplaceNl g)) [] = .ok (keptCards g) := by
    have h := @mccn_collect_eq (pyWords (pyReplaceNl g)) htok [] (by decide)
    simpa [keptCards] using h
  refine ⟨?_, ?_, ?_⟩
  · intro hlt
    exact do_mccn_reject ctx pm u g (keptCards g) hex hmaint hfsm hre hcol hlt
  · intro hge hz
    refine do_mccn_insufficient ctx pm u g (keptCards g) hex hmaint hfsm hre hcol
      (by omega) ?_
    rw [hadmin]
    simp only [Bool.false_eq_true, if_false]
    omega
  · intro hge hpos
    have hcan : ¬ min ((keptCards g).length : Int)
        (if u.is_admin then 9999 else u.credits) = 0 := by
      rw [hadmin]
      simp only [Bool.false_eq_true, if_false]
      omega
    have hmain := do_mccn_main ctx pm u g (keptCards g) _ hex hmaint hfsm hre hcol
      (by omega) hcan rfl
    have hslice : pySliceTo (min ((keptCards g).length : Int)
        (if u.is_admin then 9999 else u.credits)) (keptCards g) =
        (keptCards g).take (min (keptCards g).length u.credits.toNat) := by
      rw [hadmin]
      simp only [Bool.false_eq_true, if_false]
      simp only [pySliceTo]
      rw [if_neg (by omega)]
      congr 1
      omega
    simp only [hmain, hslice, List.append_assoc, netCallsOf_append]
    rw [netCallsOf_binLookups, mccn_loop_netCalls]
    cases hfe : ctx.finalEditOk <;> cases hcr : ctx.channel_results <;>
      simp [netCallsOf]

/-- Counterexample to C6 as frozen: the claim says invalid tokens are
merely dropped, but a token whose month field holds the digit-class
character `'²'` makes the parser raise, so the whole submission dies
with an exception and no effect at all — even though two tokens the
parser accepts remain, which should have been processed. -/
theorem claim_C6_counterexample :
    (do_mccn
      ⟨1, "A", "A", false, some ⟨9, false⟩, false, some GateState.in_gate_mccn,
       "/mccn 4111111111111111|05|26|123 5555555555554444|06|27|456 4111111111111111|²|26|123",
       fun _ => [], fun _ => NetResult.err, true, false⟩
      (fun _ => false)).raised = true ∧
    (do_mccn
      ⟨1, "A", "A", false, some ⟨9, false⟩, false, some GateState.in_gate_mccn,
       "/mccn 4111111111111111|05|26|123 5555555555554444|06|27|456 4111111111111111|²|26|123",
       fun _ => [], fun _ => NetResult.err, true, false⟩
      (fun _ => false)).trace = [] ∧
    (keptCards "4111111111111111|05|26|123 5555555555554444|06|27|456 4111111111111111|²|26|123").length = 2 := by
  refine ⟨?_, ?_, ?_⟩ <;> decide

/-- Witness for C6: a batch of 7 valid tokens with 9 credits keeps 5 and
fetches exactly those 5, in original order; a batch with a single valid
token is silently rejected. -/
theorem claim_C6_witness :
    netCallsOf (do_mccn
      ⟨1, "A", "A", false, some ⟨9, false⟩, false, some GateState.in_gate_mccn,
       "/mccn 4111111111111111|05|26|123 4111111111111111|05|26|123 4111111111111111|05|26|123 4111111111111111|05|26|123 4111111111111111|05|26|123 4111111111111111|05|26|123 4111111111111111|05|26|123",
       fun _ => [], fun _ => NetResult.err, true, false⟩
      (fun _ => false)).trace =
      ((keptCards "4111111111111111|05|26|123 4111111111111111|05|26|123 4111111111111111|05|26|123 4111111111111111|05|26|123 4111111111111111|05|26|123 4111111111111111|05|26|123 4111111111111111|05|26|123").take
        (min (keptCards "4111111111111111|05|26|123 4111111111111111|05|26|123 4111111111111111|05|26|123 4111111111111111|05|26|123 4111111111111111|05|26|123 4111111111111111|05|26|123 4111111111111111|05|26|123").length
          (Int.toNat 9))).map (fun c => BASE_CC_API ++ c) ∧
    (keptCards "4111111111111111|05|26|123 4111111111111111|05|26|123 4111111111111111|05|26|123 4111111111111111|05|26|123 4111111111111111|05|26|123 4111111111111111|05|26|123 4111111111111111|05|26|123").length = 5 ∧
    do_mccn
      ⟨1, "A", "A", false, some ⟨9, false⟩, false, some GateState.in_gate_mccn,
       "/mccn 4111111111111111|05|26|123", fun _ => [], fun _ => NetResult.err,
       true, false⟩
      (fun _ => false) = ⟨(fun _ => false), [Effect.delete], false⟩ :=
  ⟨(claim_C6
      ⟨1, "A", "A", false, some ⟨9, false⟩, false, some GateState.in_gate_mccn,
       "/mccn 4111111111111111|05|26|123 4111111111111111|05|26|123 4111111111111111|05|26|123 4111111111111111|05|26|123 4111111111111111|05|26|123 4111111111111111|05|26|123 4111111111111111|05|26|123",
       fun _ => [], fun _ => NetResult.err, true, false⟩
      (fun _ => false) ⟨9, false⟩
      "4111111111111111|05|26|123 4111111111111111|05|26|123 4111111111111111|05|26|123 4111111111111111|05|26|123 4111111111111111|05|26|123 4111111111111111|05|26|123 4111111111111111|05|26|123"
      rfl rfl rfl (by decide) rfl (by decide)).2.2 (by decide) (by decide),
   by decide,
   (claim_C6
      ⟨1, "A", "A", false, some ⟨9, false⟩, false, some GateState.in_gate_mccn,
       "/mccn 4111111111111111|05|26|123", fun _ => [], fun _ => NetResult.err,
       true, false⟩
      (fun _ => false) ⟨9, false⟩ "4111111111111111|05|26|123"
      rfl rfl rfl (by decide) rfl (by decide)).1 (by decide)⟩

/-- Claim C7 (amended): a remote-verification failure never debits
credit.  In the single gate a response that is not a non-empty list
yields the generic unable-to-process edit without a debit (first
conjunct), but a network exception propagates out of the handler: the
user is shown no outcome at all, though still without a debit (second
conjunct).  In the batch loop every per-card failure (exception,
non-list or empty response) is caught and emitted as the
Declined/Unable line at that position while every card is still fetched
(third conjunct), and exactly the successful calls debit one credit
(fourth conjunct). -/
theorem claim_C7 :
    (∀ (ctx : Ctx) (pm : ProcMap) (u : UserRec) (g full : String),
      ctx.existing = some u →
      (ctx.maintenance && !ctx.in_admin_ids) = false →
      ctx.fsm = some GateState.in_gate_ccn →
      cc_re_match ctx.text = some g →
      (!u.is_admin && decide (u.credits < 1)) = false →
      pm ctx.uid = false →
      parse_cc g = .ok (some full) →
      (ctx.net 0 = NetResult.other ∨ ctx.net 0 = NetResult.list []) →
      (do_ccn ctx pm).raised = false ∧
      debitsOf (do_ccn ctx pm).trace = [] ∧
      Effect.editMsg (ccn_fallback ctx full) ∈ (do_ccn ctx pm).trace) ∧
    (∀ (ctx : Ctx) (pm : ProcMap) (u : UserRec) (g full : String),
      ctx.existing = some u →
      (ctx.maintenance && !ctx.in_admin_ids) = false →
      ctx.fsm = some GateState.in_gate_ccn →
      cc_re_match ctx.text = some g →
      (!u.is_admin && decide (u.credits < 1)) = false →
      pm ctx.uid = false →
      parse_cc g = .ok (some full) →
      ctx.net 0 = NetResult.err →
      (do_ccn ctx pm).raised = true ∧
      debitsOf (do_ccn ctx pm).trace = [] ∧
      ∀ s, Effect.editMsg s ∉ (do_ccn ctx pm).trace) ∧
    (∀ (isAdmin : Bool) (net : Nat → NetResult) (cards : List String) (j : Nat),
      j < cards.length →
      (net j = NetResult.err ∨ net j = NetResult.other ∨
        net j = NetResult.list []) →
      (mccn_loop isAdmin net cards 0).2.getD j "" =
        unable_line (cards.getD j "") ∧
      netCallsOf (mccn_loop isAdmin net cards 0).1 =
        cards.map (fun c => BASE_CC_API ++ c) ∧
      (mccn_loop isAdmin net cards 0).2.length = cards.length) ∧
    (∀ (net : Nat → NetResult) (cards : List String),
      debitsOf (mccn_loop false net cards 0).1 =
        (cards.mapIdx (fun j _ => net j)).filterMap
          (fun nr => match nr with
            | NetResult.list (_ :: _) => some (1 : Int)
            | _ => none)) := by
  refine ⟨?_, ?_, ?_, ?_⟩
  · intro ctx pm u g full hex hmaint hfsm hre hcred hfree hparse hnet
    have h := do_ccn_badresp_trace ctx pm u g full hex hmaint hfsm hre hcred hfree
      hparse hnet
    refine ⟨by rw [h], ?_, ?_⟩
    · rw [h]
      cases hfe : ctx.finalEditOk <;>
        simp [debitsOf, ccn_pre, ccn_fin, List.filterMap_append]
    · rw [h]
      simp [ccn_pre, ccn_fin]
  · intro ctx pm u g full hex hmaint hfsm hre hcred hfree hparse hnet
    have h := do_ccn_err_trace ctx pm u g full hex hmaint hfsm hre hcred hfree
      hparse hnet
    refine ⟨by rw [h], ?_, ?_⟩
    · rw [h]
      simp [debitsOf, ccn_pre, ccn_fin, List.filterMap_append]
    · intro s hs
      rw [h] at hs
      simp [ccn_pre, ccn_fin] at hs
  · intro isAdmin net cards j hj hfail
    refine ⟨?_, mccn_loop_netCalls isAdmin net cards 0,
      mccn_loop_length isAdmin net cards 0⟩
    have h := mccn_loop_line isAdmin net cards 0 j hj
    simp only [Nat.zero_add] at h
    rcases hfail with hf | hf | hf <;> rw [hf] at h <;> simpa using h
  · intro net cards
    have h := mccn_loop_debits net cards 0
    simp only [Nat.zero_add] at h
    exact h

/-- Counterexample to C7 as frozen: on a network exception the single
gate does not show the generic unable-to-process outcome — the handler
raises, no effect in the trace carries the phrase, and the user sees no
result message at all. -/
theorem claim_C7_counterexample :
    (do_ccn
      ⟨1, "A", "A", false, some ⟨5, false⟩, false, some GateState.in_gate_ccn,
       "/ccn 4111111111111111|05|26|123", fun _ => [], fun _ => NetResult.err,
       true, false⟩
      (fun _ => false)).raised = true ∧
    (do_ccn
      ⟨1, "A", "A", false, some ⟨5, false⟩, false, some GateState.in_gate_ccn,
       "/ccn 4111111111111111|05|26|123", fun _ => [], fun _ => NetResult.err,
       true, false⟩
      (fun _ => false)).trace.all
      (fun e => !showsPhrase "Unable to process" e) = true := by
  refine ⟨?_, ?_⟩ <;> decide

/-- Witness for C7: a non-list response to the single gate is not
raised, debits nothing, and shows the unable-to-process edit; in the
batch loop a failing first card yields the Unable line at position 0
while both cards are still fetched. -/
theorem claim_C7_witness :
    ((do_ccn
      ⟨1, "A", "A", false, some ⟨5, false⟩, false, some GateState.in_gate_ccn,
       "/ccn 4111111111111111|05|26|123", fun _ => [], fun _ => NetResult.other,
       true, false⟩
      (fun _ => false)).raised = false ∧
     debitsOf (do_ccn
      ⟨1, "A", "A", false, some ⟨5, false⟩, false, some GateState.in_gate_ccn,
       "/ccn 4111111111111111|05|26|123", fun _ => [], fun _ => NetResult.other,
       true, false⟩
      (fun _ => false)).trace = [] ∧
     Effect.editMsg (ccn_fallback
      ⟨1, "A", "A", false, some ⟨5, false⟩, false, some GateState.in_gate_ccn,
       "/ccn 4111111111111111|05|26|123", fun _ => [], fun _ => NetResult.other,
       true, false⟩ "4111111111111111|05|2026|123") ∈ (do_ccn
      ⟨1, "A", "A", false, some ⟨5, false⟩, false, some GateState.in_gate_ccn,
       "/ccn 4111111111111111|05|26|123", fun _ => [], fun _ => NetResult.other,
       true, false⟩
      (fun _ => false)).trace) ∧
    ((mccn_loop false (fun _ => NetResult.err)
        ["4111111111111111|05|2026|123", "5555555555554444|06|2027|456"] 0).2.getD
        0 "" =
      unable_line (["4111111111111111|05|2026|123",
        "5555555555554444|06|2027|456"].getD 0 "") ∧
     netCallsOf (mccn_loop false (fun _ => NetResult.err)
        ["4111111111111111|05|2026|123", "5555555555554444|06|2027|456"] 0).1 =
      ["4111111111111111|05|2026|123", "5555555555554444|06|2027|456"].map
        (fun c => BASE_CC_API ++ c) ∧
     (mccn_loop false (fun _ => NetResult.err)
        ["4111111111111111|05|2026|123", "5555555555554444|06|2027|456"] 0).2.length =
      ["4111111111111111|05|2026|123", "5555555555554444|06|2027|456"].length) :=
  ⟨claim_C7.1
      ⟨1, "A", "A", false, some ⟨5, false⟩, false, some GateState.in_gate_ccn,
       "/ccn 4111111111111111|05|26|123", fun _ => [], fun _ => NetResult.other,
       true, false⟩
      (fun _ => false) ⟨5, false⟩ "4111111111111111|05|26|123"
      "4111111111111111|05|2026|123" rfl rfl rfl (by decide) (by decide) rfl
      (by decide) (Or.inl rfl),
   claim_C7.2.2.1 false (fun _ => NetResult.err)
      ["4111111111111111|05|2026|123", "5555555555554444|06|2027|456"] 0
      (by decide) (Or.inl rfl)⟩

/-- Claim C8: every final result edit obeys the
stop-then-settle-then-edit discipline — each `editMsg` in any trace of
either handler is preceded by a stop signal immediately followed by a
settle sleep (first two conjuncts); when the final edit fails, the very
next effect sends the same text as a new message, in the single gate
(third conjunct) and in the batch gate (fourth conjunct); the animator
swallows its own edit failures — its outcome is identical to the
always-succeeding-edit run and it never raises (fifth conjunct); and in
the interleaved animator/finaliser model no tick ever follows the final
edit under any schedule (sixth conjunct). -/
theorem claim_C8 :
    (∀ (ctx : Ctx) (pm : ProcMap),
      editsAfterSettle (do_ccn ctx pm).trace false = true) ∧
    (∀ (ctx : Ctx) (pm : ProcMap),
      editsAfterSettle (do_mccn ctx pm).trace false = true) ∧
    (∀ (ctx : Ctx) (pm : ProcMap) (u : UserRec) (g full : String)
      (r : RespEntry) (rs : List RespEntry),
      ctx.existing = some u →
      (ctx.maintenance && !ctx.in_admin_ids) = false →
      ctx.fsm = some GateState.in_gate_ccn →
      cc_re_match ctx.text = some g →
      (!u.is_admin && decide (u.credits < 1)) = false →
      pm ctx.uid = false →
      parse_cc g = .ok (some full) →
      ctx.net 0 = NetResult.list (r :: rs) →
      ctx.finalEditOk = false →
      ∃ pre post, (do_ccn ctx pm).trace =
        pre ++ Effect.editMsg (ccn_text ctx full r) ::
          Effect.answer (ccn_text ctx full r) :: post) ∧
    (∀ (ctx : Ctx) (pm : ProcMap) (u : UserRec) (g : String)
      (cards cards2 : List String),
      ctx.existing = some u →
      (ctx.maintenance && !ctx.in_admin_ids) = false →
      ctx.fsm = some GateState.in_gate_mccn →
      mass_re_match ctx.text = some g →
      mccn_collect (pyWords (pyReplaceNl g)) [] = .ok cards →
      ¬ cards.length < 2 →
      ¬ min (cards.length : Int) (if u.is_admin then 9999 else u.credits) = 0 →
      cards2 = pySliceTo
        (min (cards.length : Int) (if u.is_admin then 9999 else u.credits))
        cards →
      ctx.finalEditOk = false →
      ∃ pre post, (do_mccn ctx pm).trace =
        pre ++ Effect.editMsg (mccn_final ctx u.is_admin cards2) ::
          Effect.answer (mccn_final ctx u.is_admin cards2) :: post) ∧
    (∀ (base : String) (editOk : Nat → Bool) (fuel i : Nat),
      animate_processing base editOk fuel i =
        animate_processing base (fun _ => true) fuel i ∧
      ∃ ticks, animate_processing base editOk fuel i = Except.ok ticks) ∧
    (∀ sched : List ATask,
      noTickAfterFinal (arun ⟨false, 0⟩ sched) false = true) := by
  refine ⟨do_ccn_editsAfterSettle, do_mccn_editsAfterSettle, ?_, ?_, ?_, ?_⟩
  · intro ctx pm u g full r rs hex hmaint hfsm hre hcred hfree hparse hnet hfe
    refine ⟨ccn_pre ctx full ++ [Effect.stopSignal, Effect.sleep 200],
      (if ctx.channel_results then
        [Effect.channelSend (ccn_text ctx full r)] else []) ++
      (if u.is_admin then [] else [Effect.debit 1]) ++ ccn_fin, ?_⟩
    rw [do_ccn_ok_trace ctx pm u g full r rs hex hmaint hfsm hre hcred hfree
      hparse hnet]
    rw [hfe]
    cases hcr : ctx.channel_results <;> cases hia : u.is_admin <;>
      simp [ccn_pre, ccn_fin]
  · intro ctx pm u g cards cards2 hex hmaint hfsm hre hcol h2 hcan hc2 hfe
    refine ⟨(uniqBins cards2).map Effect.binLookup ++
      [Effect.answer (mccn_base ctx cards2), Effect.animStart] ++
      (mccn_loop u.is_admin ctx.net cards2 0).1 ++
      [Effect.stopSignal, Effect.sleep 200],
      (if ctx.channel_results then
        [Effect.channelSend (mccn_final ctx u.is_admin cards2)] else []) ++
      [Effect.stopSignal, Effect.sleep 100, Effect.answer mccn_gate_info], ?_⟩
    rw [do_mccn_main ctx pm u g cards cards2 hex hmaint hfsm hre hcol h2 hcan hc2]
    rw [hfe]
    cases hcr : ctx.channel_results <;> simp
  · intro base editOk fuel i
    exact ⟨animate_processing_indep base editOk fuel i,
      animate_processing_ok base editOk fuel i⟩
  · intro sched
    exact arun_noTickAfterFinal sched ⟨false, 0⟩ (fun h => absurd rfl h)

/-- Witness for C8: with a failing final edit, the single-gate trace
contains the final edit immediately followed by the fallback send of the
same text; and a concrete adversarial schedule of the interleaving
produces no tick after the final edit. -/
theorem claim_C8_witness :
    (∃ pre post, (do_ccn
      ⟨1, "A", "A", false, some ⟨5, false⟩, false, some GateState.in_gate_ccn,
       "/ccn 4111111111111111|05|26|123", fun _ => [],
       fun _ => NetResult.list [⟨some "succeeded", some "ok"⟩], false, false⟩
      (fun _ => false)).trace =
      pre ++ Effect.editMsg (ccn_text
        ⟨1, "A", "A", false, some ⟨5, false⟩, false, some GateState.in_gate_ccn,
         "/ccn 4111111111111111|05|26|123", fun _ => [],
         fun _ => NetResult.list [⟨some "succeeded", some "ok"⟩], false, false⟩
        "4111111111111111|05|2026|123" ⟨some "succeeded", some "ok"⟩) ::
        Effect.answer (ccn_text
        ⟨1, "A", "A", false, some ⟨5, false⟩, false, some GateState.in_gate_ccn,
         "/ccn 4111111111111111|05|26|123", fun _ => [],
         fun _ => NetResult.list [⟨some "succeeded", some "ok"⟩], false, false⟩
        "4111111111111111|05|2026|123" ⟨some "succeeded", some "ok"⟩) :: post) ∧
    noTickAfterFinal (arun ⟨false, 0⟩
      [ATask.anim, ATask.fin, ATask.anim, ATask.fin, ATask.fin, ATask.anim])
      false = true :=
  ⟨claim_C8.2.2.1
      ⟨1, "A", "A", false, some ⟨5, false⟩, false, some GateState.in_gate_ccn,
       "/ccn 4111111111111111|05|26|123", fun _ => [],
       fun _ => NetResult.list [⟨some "succeeded", some "ok"⟩], false, false⟩
      (fun _ => false) ⟨5, false⟩ "4111111111111111|05|26|123"
      "4111111111111111|05|2026|123" ⟨some "succeeded", some "ok"⟩ [] rfl rfl rfl
      (by decide) (by decide) rfl (by decide) rfl rfl,
   claim_C8.2.2.2.2.2
      [ATask.anim, ATask.fin, ATask.anim, ATask.fin, ATask.fin, ATask.anim]⟩

end Bot
